import Mathlib

/-!
Verification development for the screenshot-to-HTML converter backend.
Shallow embedding of the segmentation core, the bounding-box
post-processing and the layout-synthesis logic: grayscale pixels are
naturals, numpy floats are rationals, dictionaries are structures or
association lists, and fallible code returns Option.
-/

namespace ImgSeg

/-- Exact rational numbers representing Python/numpy float computations in
the source (all quantities involved are exact decimals, so exact rational
arithmetic is the standard shallow embedding; an explicit
numerator/denominator pair is used so that every operation reduces inside
the kernel).  All constructions keep the denominator positive.  Division
by zero yields 0 (the source never divides by zero on the paths modelled
here; the one numpy corner, the mean of an empty array, is noted where it
matters). -/
structure PyNum where
  num : ℤ
  den : ℤ
deriving DecidableEq, Repr

instance : OfNat PyNum n := ⟨⟨n, 1⟩⟩

/-- Embed a natural (pixel value, count, distance) as a number. -/
def PyNum.ofNat (n : ℕ) : PyNum := ⟨n, 1⟩

/-- Embed an integer as a number. -/
def PyNum.ofInt (n : ℤ) : PyNum := ⟨n, 1⟩

instance : Add PyNum := ⟨fun a b => ⟨a.num * b.den + b.num * a.den, a.den * b.den⟩⟩

instance : Sub PyNum := ⟨fun a b => ⟨a.num * b.den - b.num * a.den, a.den * b.den⟩⟩

instance : Mul PyNum := ⟨fun a b => ⟨a.num * b.num, a.den * b.den⟩⟩

instance : Div PyNum :=
  ⟨fun a b =>
    if b.num = 0 then ⟨0, 1⟩
    else if 0 < b.num then ⟨a.num * b.den, a.den * b.num⟩
    else ⟨-(a.num * b.den), -(a.den * b.num)⟩⟩

/-- Order on the embedded rationals (cross multiplication; denominators
are positive by construction). -/
def PyNum.le (a b : PyNum) : Prop := a.num * b.den ≤ b.num * a.den

/-- Strict order on the embedded rationals. -/
def PyNum.lt (a b : PyNum) : Prop := a.num * b.den < b.num * a.den

instance : LE PyNum := ⟨PyNum.le⟩

instance : LT PyNum := ⟨PyNum.lt⟩

instance (a b : PyNum) : Decidable (a ≤ b) :=
  inferInstanceAs (Decidable (a.num * b.den ≤ b.num * a.den))

instance (a b : PyNum) : Decidable (a < b) :=
  inferInstanceAs (Decidable (a.num * b.den < b.num * a.den))

/-- Python `max` of two numbers (returns the first argument on ties). -/
def PyNum.pymax (a b : PyNum) : PyNum := if a < b then b else a

/-- Sum of a list of numbers. -/
def pySum (l : List PyNum) : PyNum := l.foldl (· + ·) 0


/-- A grayscale image: a list of pixel rows, each row a list of 8-bit
intensities (naturals below 256). -/
abbrev GrayImg := List (List ℕ)

/-- Row access `img[i]` (in the source all indices are in range; out of
range defaults to the empty row). -/
def row (img : GrayImg) (i : ℕ) : List ℕ := img.getD i []

/-- Wrap-around subtraction of two 8-bit pixel values, exactly as numpy
performs it on `uint8` arrays: `(a - b) mod 256`.  `np.abs` applied to an
unsigned array is the identity, so `np.abs(upper - window[0])` in
`separation_line_detection` computes precisely this value. -/
def u8sub (a b : ℕ) : ℕ := (((a : ℤ) - (b : ℤ)).emod 256).toNat

/-- Arithmetic mean of a list of rationals (`np.mean`); the source never
takes the mean of an empty array in the paths modelled here. -/
def listMean (l : List PyNum) : PyNum := pySum l / PyNum.ofNat l.length

/-- Population variance of a list of rationals (`np.var`, which flattens
its argument). -/
def listVar (l : List PyNum) : PyNum :=
  listMean (l.map (fun x => (x - listMean l) * (x - listMean l)))

/-- Per-column difference row between the row just outside the window and
the window's edge row, with `uint8` wrap-around (`np.abs(outside - edge)`
on `uint8` data). -/
def diffRow (outside edge : List ℕ) : List ℕ := List.zipWith u8sub outside edge

/-- Border test on a difference row: the mean difference exceeds
`diff_thr` and the fraction of columns exceeding `diff_thr` exceeds
`portion_thr` (`np.mean(diff) > diff_thr and np.mean(diff > diff_thr) >
portion_thr`). -/
def borderFlag (diff : List ℕ) (diff_thr portion_thr : PyNum) : Bool :=
  decide (diff_thr < listMean (diff.map (fun d => PyNum.ofNat d)) ∧
    portion_thr < listMean (diff.map (fun d =>
      if diff_thr < PyNum.ofNat d then (1 : PyNum) else 0)))

/-- Candidate separation lines with confidence scores: the window scan of
`separation_line_detection` (helper.py lines 45-87).  For each `i` in
`range(window_size + 1, len(img) - window_size - 1)` the window
`img[i-ws:i]` must be blank (variance below `var_thr`) and a border must
exist just above or just below it; the position is `i` when the border is
below, else `i - ws`, and the confidence is the larger of the two mean
differences, boosted by 1.5 within 5% of the image height of an edge. -/
def slCandidates (img : GrayImg) (var_thr diff_thr portion_thr : PyNum) (ws : ℕ) :
    List (ℕ × PyNum) :=
  let n := img.length
  (List.range n).filterMap (fun i =>
    if ws + 1 ≤ i ∧ i + ws + 1 < n then
      let upper := row img (i - ws - 1)
      let lower := row img i
      let windowRows := (List.range ws).map (fun k => row img (i - ws + k))
      let v := listVar ((windowRows.flatten).map (fun p => PyNum.ofNat p))
      let dtop := diffRow upper (row img (i - ws))
      let dbot := diffRow lower (row img (i - 1))
      let is_border_top := borderFlag dtop diff_thr portion_thr
      let is_border_bottom := borderFlag dbot diff_thr portion_thr
      if v < var_thr ∧ (is_border_top ∨ is_border_bottom) then
        let pos := if is_border_bottom then i else i - ws
        let conf := PyNum.pymax (listMean (dtop.map (fun d => PyNum.ofNat d)))
          (listMean (dbot.map (fun d => PyNum.ofNat d)))
        let conf := if PyNum.ofNat (min pos (n - pos)) / PyNum.ofNat n < 1/20
          then conf * (3/2) else conf
        some (pos, conf)
      else none
    else none)

/-- Stable sort of the candidate list by confidence, highest first
(`candidate_lines.sort(key=lambda x: x[1], reverse=True)`; Python's sort
is stable, as is insertion sort, so the two agree). -/
def sortByConfDesc (cands : List (ℕ × PyNum)) : List (ℕ × PyNum) :=
  List.insertionSort (fun a b => b.2 ≤ a.2) cands

/-- Sort selected line positions ascending (`selected_lines.sort()`). -/
def sortAsc (l : List ℕ) : List ℕ := List.insertionSort (· ≤ ·) l

/-- A position is admissible when it is at least `mld` away from every
already-selected position. -/
def farFrom (mld : ℕ) (sel : List ℕ) (p : ℕ) : Bool :=
  sel.all (fun q => decide ((mld : ℤ) ≤ |(p : ℤ) - (q : ℤ)|))

/-- Greedy acceptance pass: scan the (confidence-sorted) candidates and
accept each whose position is far enough from every accepted position,
starting from an initial accepted list. -/
def greedyFrom (init : List ℕ) (cands : List (ℕ × PyNum)) (mld : ℕ) : List ℕ :=
  cands.foldl (fun sel pc => if farFrom mld sel pc.1 then sel ++ [pc.1] else sel) init

/-- Line selection of `separation_line_detection` (helper.py lines
89-135): empty candidates give the empty result; otherwise sort by
confidence descending and accept greedily under the distance constraint;
if fewer than three lines survive, restart with the highest-confidence
candidate forced in and the distance threshold halved; finally sort by
position. -/
def selectSeparationLines (cands : List (ℕ × PyNum)) (mld : ℕ) : List ℕ :=
  if cands.isEmpty then []
  else
    let sorted := sortByConfDesc cands
    let sel := greedyFrom [] sorted mld
    if 3 ≤ sel.length then sortAsc sel
    else
      match sorted with
      | [] => []
      | top :: rest => sortAsc (greedyFrom [top.1] rest (mld / 2))

/-- Effective minimum line distance inside the detector: a non-positive
argument is replaced by `int(img_height * 0.03)`. -/
def slEffMld (mld : ℤ) (h : ℕ) : ℕ := if mld ≤ 0 then 3 * h / 100 else mld.toNat

/-- The separation-line detector (helper.py lines 12-135), as a function
of the grayscale image and the thresholds. -/
def separation_line_detection (img : GrayImg) (var_thr diff_thr portion_thr : PyNum)
    (ws : ℕ) (mld : ℤ) : List ℕ :=
  selectSeparationLines (slCandidates img var_thr diff_thr portion_thr ws)
    (slEffMld mld img.length)

/-- Effective minimum line distance of the segmenter: a non-positive
argument is replaced by `int(img_height * 0.05)`. -/
def enhEffMld (mld : ℤ) (h : ℕ) : ℕ := if mld ≤ 0 then 5 * h / 100 else mld.toNat

/-- Whether a position is closer than `halfDist` to some line of `lines`
(`any(abs(line - existing) < min_line_distance / 2 ...)`). -/
def nearAny (lines : List ℕ) (halfDist : PyNum) (p : ℕ) : Bool :=
  lines.any (fun q => decide (PyNum.ofInt |(p : ℤ) - (q : ℤ)| < halfDist))

/-- Candidate pool of `enhanced_image_segmentation` (helper.py lines
193-226): detector lines carry confidence 0.8; blank-region lines carry
0.9 when corroborated by a detector line within half the minimum
distance, else 0.7; color-transition lines carry 0.9 when corroborated by
a detector line, 0.75 when near a blank-region line, else 0.6. -/
def enhancedCandidates (lines1 blank color : List ℕ) (mld : ℕ) : List (ℕ × PyNum) :=
  let c1 := lines1.map (fun l => (l, (4/5 : PyNum)))
  let cb := blank.map (fun l =>
    (l, if nearAny lines1 (PyNum.ofNat mld / 2) l then (9/10 : PyNum) else 7/10))
  let cc := color.map (fun l =>
    (l, if nearAny lines1 (PyNum.ofNat mld / 2) l then (9/10 : PyNum)
        else if nearAny blank (PyNum.ofNat mld / 2) l then (3/4 : PyNum) else 3/5))
  c1 ++ cb ++ cc

/-- Greedy selection with a confidence threshold (helper.py lines
232-245): candidates below the threshold are skipped, the rest are
accepted greedily under the minimum-distance constraint. -/
def greedyThresh (cands : List (ℕ × PyNum)) (thr : PyNum) (mld : ℕ) : List ℕ :=
  cands.foldl (fun sel pc =>
    if pc.2 < thr then sel
    else if farFrom mld sel pc.1 then sel ++ [pc.1] else sel) []

/-- Cut-line fusion of `enhanced_image_segmentation` (helper.py lines
137-248), parameterised by the outputs `blank` and `color` of the two
external detectors (`find_height_spliter`, `color_height_spliter`), which
are external collaborators. -/
def enhancedSelectLines (img : GrayImg) (blank color : List ℕ) (confThr : PyNum)
    (mld : ℤ) (bVar bDiff bPortion : PyNum) (ws : ℕ) : List ℕ :=
  let h := img.length
  let eff := enhEffMld mld h
  let lines1 := separation_line_detection img bVar bDiff bPortion ws (eff : ℤ)
  let cands := sortByConfDesc (enhancedCandidates lines1 blank color eff)
  sortAsc (greedyThresh cands confThr eff)

/-- Adjacent pairs of a boundary list. -/
def pairsOf : List ℕ → List (ℕ × ℕ)
  | a :: b :: rest => (a, b) :: pairsOf (b :: rest)
  | _ => []

/-- Section derivation (`get_content_sections`, helper.py lines 256-277):
prepend 0 and append the image height to the line list and pair adjacent
boundaries. -/
def get_content_sections (h : ℕ) (lines : List ℕ) : List (ℕ × ℕ) :=
  pairsOf (0 :: lines ++ [h])

/-- The multi-signal segmenter `enhanced_image_segmentation`: the fused
line list together with the derived sections. -/
def enhanced_image_segmentation (img : GrayImg) (blank color : List ℕ)
    (confThr : PyNum) (mld : ℤ) (bVar bDiff bPortion : PyNum) (ws : ℕ) :
    List ℕ × List (ℕ × ℕ) :=
  let lines := enhancedSelectLines img blank color confThr mld bVar bDiff bPortion ws
  (lines, get_content_sections img.length lines)

/-- Modelled from the spec: the per-column ABSOLUTE intensity difference
`|row_outside - row_edge|` that §4.1 prescribes for the border test
("compute the per-column absolute intensity difference between the
window's first/last row and the row immediately outside the window").
The source instead computes the `uint8` wrap-around difference, see
`diffRow`. -/
def diffRowAbsSpec (outside edge : List ℕ) : List ℕ :=
  List.zipWith (fun a b => ((a : ℤ) - (b : ℤ)).natAbs) outside edge

/-- Modelled from the spec: the candidate scan of §4.1 with the border
diffs taken as true absolute differences; identical to `slCandidates`
except that `diffRowAbsSpec` replaces `diffRow`. -/
def slCandidatesAbsSpec (img : GrayImg) (var_thr diff_thr portion_thr : PyNum) (ws : ℕ) :
    List (ℕ × PyNum) :=
  let n := img.length
  (List.range n).filterMap (fun i =>
    if ws + 1 ≤ i ∧ i + ws + 1 < n then
      let upper := row img (i - ws - 1)
      let lower := row img i
      let windowRows := (List.range ws).map (fun k => row img (i - ws + k))
      let v := listVar ((windowRows.flatten).map (fun p => PyNum.ofNat p))
      let dtop := diffRowAbsSpec upper (row img (i - ws))
      let dbot := diffRowAbsSpec lower (row img (i - 1))
      let is_border_top := borderFlag dtop diff_thr portion_thr
      let is_border_bottom := borderFlag dbot diff_thr portion_thr
      if v < var_thr ∧ (is_border_top ∨ is_border_bottom) then
        let pos := if is_border_bottom then i else i - ws
        let conf := PyNum.pymax (listMean (dtop.map (fun d => PyNum.ofNat d)))
          (listMean (dbot.map (fun d => PyNum.ofNat d)))
        let conf := if PyNum.ofNat (min pos (n - pos)) / PyNum.ofNat n < 1/20
          then conf * (3/2) else conf
        some (pos, conf)
      else none
    else none)

/-- Two positions are at least `mld` apart. -/
def distGE (mld : ℕ) (a b : ℕ) : Prop := (mld : ℤ) ≤ |(a : ℤ) - (b : ℤ)|

theorem distGE_symm (mld : ℕ) : Symmetric (distGE mld) := by
  intro a b h
  unfold distGE at *
  rwa [abs_sub_comm]

theorem farFrom_true_iff (mld : ℕ) (sel : List ℕ) (p : ℕ) :
    farFrom mld sel p = true ↔ ∀ q ∈ sel, distGE mld p q := by
  simp [farFrom, distGE]

theorem greedyFrom_pairwise (cands : List (ℕ × PyNum)) (mld : ℕ) :
    ∀ init : List ℕ, init.Pairwise (distGE mld) →
      (greedyFrom init cands mld).Pairwise (distGE mld) := by
  induction cands with
  | nil => intro init h; exact h
  | cons pc rest ih =>
    intro init h
    rw [greedyFrom, List.foldl_cons]
    by_cases hf : farFrom mld init pc.1 = true
    · rw [if_pos hf]
      refine ih _ ?_
      rw [List.pairwise_append]
      refine ⟨h, List.pairwise_singleton _ _, ?_⟩
      intro a ha b hb
      rw [List.mem_singleton] at hb
      subst hb
      exact distGE_symm mld ((farFrom_true_iff mld init pc.1).mp hf a ha)
    · rw [if_neg hf]
      exact ih init h

theorem greedyFrom_subset (cands : List (ℕ × PyNum)) (mld : ℕ) :
    ∀ init : List ℕ, ∀ x ∈ greedyFrom init cands mld,
      x ∈ init ∨ x ∈ cands.map Prod.fst := by
  induction cands with
  | nil => intro init x hx; exact Or.inl hx
  | cons pc rest ih =>
    intro init x hx
    rw [greedyFrom, List.foldl_cons] at hx
    by_cases hf : farFrom mld init pc.1 = true
    · rw [if_pos hf] at hx
      rcases ih _ x hx with h | h
      · rcases List.mem_append.mp h with h' | h'
        · exact Or.inl h'
        · rw [List.mem_singleton] at h'
          exact Or.inr (by simp [h'])
      · exact Or.inr (by simp [List.mem_map] at h ⊢; tauto)
    · rw [if_neg hf] at hx
      rcases ih init x hx with h | h
      · exact Or.inl h
      · exact Or.inr (by simp [List.mem_map] at h ⊢; tauto)

theorem greedyFrom_init_subset (cands : List (ℕ × PyNum)) (mld : ℕ) :
    ∀ init : List ℕ, init ⊆ greedyFrom init cands mld := by
  induction cands with
  | nil => intro init x hx; exact hx
  | cons pc rest ih =>
    intro init x hx
    rw [greedyFrom, List.foldl_cons]
    by_cases hf : farFrom mld init pc.1 = true
    · rw [if_pos hf]
      exact ih _ (List.mem_append_left _ hx)
    · rw [if_neg hf]
      exact ih init hx

theorem sortAsc_perm (l : List ℕ) : List.Perm (sortAsc l) l :=
  List.perm_insertionSort _ l

theorem sortAsc_sorted (l : List ℕ) : (sortAsc l).Sorted (· ≤ ·) :=
  List.sorted_insertionSort _ l

theorem sortByConfDesc_perm (l : List (ℕ × PyNum)) : List.Perm (sortByConfDesc l) l :=
  List.perm_insertionSort _ l

/-- C3: the detector's selection stage sorts candidates by confidence
descending, greedily accepts a candidate exactly when it is at least
`min_line_distance` from every accepted position, retries with the
highest-confidence candidate forced in and the threshold halved when
fewer than three lines survive, and returns a position-ascending list
whose pairs are separated by the producing pass's effective minimum
distance. -/
theorem selection_two_pass_spec (cands : List (ℕ × PyNum)) (mld : ℕ)
    (hne : cands ≠ []) :
    (selectSeparationLines cands mld).Sorted (· ≤ ·) ∧
    (if 3 ≤ (greedyFrom [] (sortByConfDesc cands) mld).length then
      selectSeparationLines cands mld =
        sortAsc (greedyFrom [] (sortByConfDesc cands) mld) ∧
      (selectSeparationLines cands mld).Pairwise (distGE mld)
    else ∃ top rest, sortByConfDesc cands = top :: rest ∧
      selectSeparationLines cands mld = sortAsc (greedyFrom [top.1] rest (mld / 2)) ∧
      top.1 ∈ selectSeparationLines cands mld ∧
      (selectSeparationLines cands mld).Pairwise (distGE (mld / 2))) := by
  have hemp : cands.isEmpty = false := by
    cases cands with
    | nil => exact absurd rfl hne
    | cons a l => rfl
  have hsne : sortByConfDesc cands ≠ [] := by
    intro h
    apply hne
    have hl := (sortByConfDesc_perm cands).length_eq
    rw [h] at hl
    exact List.length_eq_zero.mp hl.symm
  by_cases h3 : 3 ≤ (greedyFrom [] (sortByConfDesc cands) mld).length
  · have hsel : selectSeparationLines cands mld =
        sortAsc (greedyFrom [] (sortByConfDesc cands) mld) := by
      rw [selectSeparationLines, hemp]
      simp only [Bool.false_eq_true, if_false, if_pos h3]
    refine ⟨hsel ▸ sortAsc_sorted _, ?_⟩
    rw [if_pos h3]
    refine ⟨hsel, ?_⟩
    rw [hsel]
    rw [(sortAsc_perm _).pairwise_iff (fun h => distGE_symm mld h)]
    exact greedyFrom_pairwise _ mld [] List.Pairwise.nil
  · obtain ⟨top, rest, htr⟩ : ∃ top rest, sortByConfDesc cands = top :: rest := by
      cases h : sortByConfDesc cands with
      | nil => exact absurd h hsne
      | cons a l => exact ⟨a, l, rfl⟩
    have hsel : selectSeparationLines cands mld =
        sortAsc (greedyFrom [top.1] rest (mld / 2)) := by
      rw [selectSeparationLines, hemp]
      simp only [Bool.false_eq_true, if_false, if_neg h3]
      rw [htr]
    refine ⟨hsel ▸ sortAsc_sorted _, ?_⟩
    rw [if_neg h3]
    refine ⟨top, rest, htr, hsel, ?_, ?_⟩
    · rw [hsel]
      exact ((sortAsc_perm _).mem_iff).mpr
        (greedyFrom_init_subset rest (mld / 2) [top.1] (List.mem_singleton_self _))
    · rw [hsel, (sortAsc_perm _).pairwise_iff (fun h => distGE_symm (mld / 2) h)]
      exact greedyFrom_pairwise rest (mld / 2) [top.1]
        (List.pairwise_singleton _ _)

/-- Witness for C3 at a concrete candidate list whose first pass yields
only two lines, forcing the second pass. -/
theorem selection_two_pass_spec_witness :
    ([(10, (9/10 : PyNum)), (12, 8/10), (30, 7/10)] ≠ ([] : List (ℕ × PyNum))) ∧
    (selectSeparationLines [(10, (9/10 : PyNum)), (12, 8/10), (30, 7/10)] 5).Sorted (· ≤ ·) :=
  ⟨by decide, (selection_two_pass_spec [(10, (9/10 : PyNum)), (12, 8/10), (30, 7/10)] 5
    (by decide)).1⟩

theorem slCandidates_pos (img : GrayImg) (v d p : PyNum) (ws : ℕ) :
    ∀ pc ∈ slCandidates img v d p ws, 0 < pc.1 ∧ pc.1 < img.length := by
  intro pc hpc
  simp only [slCandidates, List.mem_filterMap, List.mem_range] at hpc
  obtain ⟨i, hi, hf⟩ := hpc
  split at hf
  · next hrange =>
    split at hf
    · next =>
      split at hf
      · next =>
        cases hf
        exact ⟨by omega, by omega⟩
      · next =>
        cases hf
        exact ⟨by omega, by omega⟩
    · exact absurd hf (by simp)
  · exact absurd hf (by simp)

theorem selectSeparationLines_subset (cands : List (ℕ × PyNum)) (mld : ℕ) :
    ∀ x ∈ selectSeparationLines cands mld, x ∈ cands.map Prod.fst := by
  intro x hx
  rw [selectSeparationLines] at hx
  split at hx
  · simp at hx
  · have hx : x ∈
        (if 3 ≤ (greedyFrom [] (sortByConfDesc cands) mld).length then
          sortAsc (greedyFrom [] (sortByConfDesc cands) mld)
        else
          match sortByConfDesc cands with
          | [] => []
          | top :: rest => sortAsc (greedyFrom [top.1] rest (mld / 2))) := hx
    split at hx
    · have hx' := (sortAsc_perm _).mem_iff.mp hx
      rcases greedyFrom_subset _ mld [] x hx' with h | h
      · simp at h
      · exact ((sortByConfDesc_perm cands).map Prod.fst).mem_iff.mp h
    · next =>
      revert hx
      cases hsc : sortByConfDesc cands with
      | nil => intro hx; simp at hx
      | cons top rest =>
        intro hx
        have hx' := (sortAsc_perm _).mem_iff.mp hx
        rcases greedyFrom_subset rest (mld / 2) [top.1] x hx' with h | h
        · rw [List.mem_singleton] at h
          subst h
          have : top.1 ∈ (sortByConfDesc cands).map Prod.fst := by
            rw [hsc]; exact List.mem_cons_self _ _
          exact ((sortByConfDesc_perm cands).map Prod.fst).mem_iff.mp this
        · have : x ∈ (sortByConfDesc cands).map Prod.fst := by
            rw [hsc, List.map_cons]
            exact List.mem_cons_of_mem _ h
          exact ((sortByConfDesc_perm cands).map Prod.fst).mem_iff.mp this

theorem separation_line_detection_bounds (img : GrayImg) (v d p : PyNum) (ws : ℕ)
    (mld : ℤ) :
    ∀ x ∈ separation_line_detection img v d p ws mld, 0 < x ∧ x < img.length := by
  intro x hx
  have h := selectSeparationLines_subset _ _ x hx
  rw [List.mem_map] at h
  obtain ⟨pc, hpc, hfst⟩ := h
  exact hfst ▸ slCandidates_pos img v d p ws pc hpc

theorem greedyThresh_foldl (thr : PyNum) (mld : ℕ) (cands : List (ℕ × PyNum)) :
    ∀ init : List ℕ,
      cands.foldl (fun sel pc =>
          if pc.2 < thr then sel
          else if farFrom mld sel pc.1 then sel ++ [pc.1] else sel) init =
        greedyFrom init (cands.filter (fun pc => !decide (pc.2 < thr))) mld := by
  induction cands with
  | nil => intro init; rfl
  | cons pc rest ih =>
    intro init
    rw [List.foldl_cons, List.filter_cons]
    by_cases hth : pc.2 < thr
    · rw [if_pos hth]
      have hd : (!decide (pc.2 < thr)) = false := by simp [hth]
      rw [hd]
      simp only [Bool.false_eq_true, if_false]
      exact ih init
    · rw [if_neg hth]
      have hd : (!decide (pc.2 < thr)) = true := by simp [hth]
      rw [hd]
      simp only [if_true]
      rw [greedyFrom, List.foldl_cons]
      by_cases hf : farFrom mld init pc.1 = true
      · rw [if_pos hf]
        exact ih _
      · rw [if_neg hf]
        exact ih init

theorem greedyThresh_eq (cands : List (ℕ × PyNum)) (thr : PyNum) (mld : ℕ) :
    greedyThresh cands thr mld =
      greedyFrom [] (cands.filter (fun pc => !decide (pc.2 < thr))) mld :=
  greedyThresh_foldl thr mld cands []

theorem enhancedCandidates_fst (lines1 blank color : List ℕ) (mld : ℕ) :
    ∀ x ∈ (enhancedCandidates lines1 blank color mld).map Prod.fst,
      x ∈ lines1 ∨ x ∈ blank ∨ x ∈ color := by
  intro x hx
  simp only [enhancedCandidates, List.map_append, List.mem_append, List.map_map,
    List.mem_map, Function.comp] at hx
  rcases hx with (h | h) | h
  · obtain ⟨l, hl, he⟩ := h; exact Or.inl (he ▸ hl)
  · obtain ⟨l, hl, he⟩ := h; exact Or.inr (Or.inl (he ▸ hl))
  · obtain ⟨l, hl, he⟩ := h; exact Or.inr (Or.inr (he ▸ hl))

theorem pairsOf_first_bound :
    ∀ (rest : List ℕ) (b : ℕ), List.Chain' (· < ·) (b :: rest) →
      ∀ s ∈ pairsOf (b :: rest), b ≤ s.1 ∧ s.1 < s.2 := by
  intro rest
  induction rest with
  | nil => intro b _ s hs; simp [pairsOf] at hs
  | cons c r ih =>
    intro b hch s hs
    rw [List.chain'_cons] at hch
    obtain ⟨hbc, hch'⟩ := hch
    rw [pairsOf] at hs
    rcases List.mem_cons.mp hs with h | h
    · subst h; exact ⟨le_refl _, hbc⟩
    · have := ih c hch' s h
      exact ⟨le_of_lt (lt_of_lt_of_le hbc this.1), this.2⟩

theorem pairsOf_cover :
    ∀ (rest : List ℕ) (b : ℕ), List.Chain' (· < ·) (b :: rest) →
      ∀ y, b ≤ y → y < (b :: rest).getLast (List.cons_ne_nil b rest) →
        ∃! s, s ∈ pairsOf (b :: rest) ∧ s.1 ≤ y ∧ y < s.2 := by
  intro rest
  induction rest with
  | nil =>
    intro b _ y hlo hhi
    simp only [List.getLast_singleton] at hhi
    omega
  | cons c r ih =>
    intro b hch y hlo hhi
    rw [List.chain'_cons] at hch
    obtain ⟨hbc, hch'⟩ := hch
    rw [List.getLast_cons (List.cons_ne_nil c r)] at hhi
    by_cases hyc : y < c
    · refine ⟨(b, c), ⟨List.mem_cons_self _ _, hlo, hyc⟩, ?_⟩
      rintro s ⟨hs, hs1, hs2⟩
      rcases List.mem_cons.mp hs with h | h
      · exact h
      · have := pairsOf_first_bound r c hch' s h
        omega
    · have hcy : c ≤ y := le_of_not_lt hyc
      obtain ⟨s, ⟨hsm, hs1, hs2⟩, huniq⟩ := ih c hch' y hcy hhi
      refine ⟨s, ⟨List.mem_cons_of_mem _ hsm, hs1, hs2⟩, ?_⟩
      rintro t ⟨ht, ht1, ht2⟩
      rcases List.mem_cons.mp ht with h | h
      · subst h; simp only at ht1 ht2; omega
      · exact huniq t ⟨h, ht1, ht2⟩

theorem enhancedSelectLines_mem (img : GrayImg) (blank color : List ℕ)
    (confThr : PyNum) (mld : ℤ) (bVar bDiff bPortion : PyNum) (ws : ℕ) :
    ∀ x ∈ enhancedSelectLines img blank color confThr mld bVar bDiff bPortion ws,
      x ∈ separation_line_detection img bVar bDiff bPortion ws
          ((enhEffMld mld img.length : ℕ) : ℤ) ∨ x ∈ blank ∨ x ∈ color := by
  intro x hx
  rw [enhancedSelectLines] at hx
  have hx' := (sortAsc_perm _).mem_iff.mp hx
  rw [greedyThresh_eq] at hx'
  rcases greedyFrom_subset _ _ [] x hx' with h | h
  · simp at h
  · rw [List.mem_map] at h
    obtain ⟨pc, hpc, hfst⟩ := h
    have hpc' : pc ∈ sortByConfDesc (enhancedCandidates
        (separation_line_detection img bVar bDiff bPortion ws
          ((enhEffMld mld img.length : ℕ) : ℤ)) blank color
        (enhEffMld mld img.length)) := List.mem_of_mem_filter hpc
    have hpc'' := (sortByConfDesc_perm _).mem_iff.mp hpc'
    have := enhancedCandidates_fst _ blank color _ x
      (hfst ▸ List.mem_map_of_mem Prod.fst hpc'')
    exact this

theorem enhancedSelectLines_sorted (img : GrayImg) (blank color : List ℕ)
    (confThr : PyNum) (mld : ℤ) (bVar bDiff bPortion : PyNum) (ws : ℕ) :
    (enhancedSelectLines img blank color confThr mld bVar bDiff bPortion ws).Sorted
      (· ≤ ·) := by
  rw [enhancedSelectLines]
  exact sortAsc_sorted _

theorem enhancedSelectLines_pairwise (img : GrayImg) (blank color : List ℕ)
    (confThr : PyNum) (mld : ℤ) (bVar bDiff bPortion : PyNum) (ws : ℕ) :
    (enhancedSelectLines img blank color confThr mld bVar bDiff bPortion ws).Pairwise
      (distGE (enhEffMld mld img.length)) := by
  rw [enhancedSelectLines]
  rw [(sortAsc_perm _).pairwise_iff (fun h => distGE_symm _ h)]
  rw [greedyThresh_eq]
  exact greedyFrom_pairwise _ _ [] List.Pairwise.nil

/-- C1, amended: for every image and parameters, PROVIDED the image has
positive height, every line contributed by the two external detectors
lies strictly between 0 and the image height, and the effective minimum
line distance is at least one pixel, the sections returned by the
segmenter partition `[0, height)`: the boundary list `0, line_1, ...,
line_k, height` is strictly increasing, the sections are its adjacent
pairs in order, and every pixel row below the height lies in exactly one
section.  (The unamended claim, quantifying over arbitrary detector
contributions, fails: see the counterexample.) -/
theorem segmenter_sections_partition (img : GrayImg) (blank color : List ℕ)
    (confThr : PyNum) (mld : ℤ) (bVar bDiff bPortion : PyNum) (ws : ℕ)
    (hh : 0 < img.length)
    (hb : ∀ l ∈ blank, 0 < l ∧ l < img.length)
    (hc : ∀ l ∈ color, 0 < l ∧ l < img.length)
    (hm : 1 ≤ enhEffMld mld img.length) :
    List.Chain' (· < ·)
      (0 :: (enhancedSelectLines img blank color confThr mld bVar bDiff bPortion ws
        ++ [img.length])) ∧
    (enhanced_image_segmentation img blank color confThr mld bVar bDiff bPortion ws).2 =
      pairsOf (0 :: (enhancedSelectLines img blank color confThr mld bVar bDiff bPortion ws
        ++ [img.length])) ∧
    ∀ y, y < img.length →
      ∃! s, s ∈ (enhanced_image_segmentation img blank color confThr mld
          bVar bDiff bPortion ws).2 ∧ s.1 ≤ y ∧ y < s.2 := by
  have hmem : ∀ x ∈ enhancedSelectLines img blank color confThr mld bVar bDiff bPortion ws,
      0 < x ∧ x < img.length := by
    intro x hx
    rcases enhancedSelectLines_mem img blank color confThr mld bVar bDiff bPortion ws x hx
      with h | h | h
    · exact separation_line_detection_bounds img bVar bDiff bPortion ws _ x h
    · exact hb x h
    · exact hc x h
  have hnodup : (enhancedSelectLines img blank color confThr mld bVar bDiff
      bPortion ws).Nodup := by
    refine (enhancedSelectLines_pairwise img blank color confThr mld bVar bDiff
      bPortion ws).imp ?_
    intro a b hab
    intro he
    subst he
    unfold distGE at hab
    simp only [sub_self, abs_zero] at hab
    omega
  have hlt : (enhancedSelectLines img blank color confThr mld bVar bDiff
      bPortion ws).Sorted (· < ·) :=
    (enhancedSelectLines_sorted img blank color confThr mld bVar bDiff bPortion
      ws).lt_of_le hnodup
  have hchain : List.Chain' (· < ·)
      (0 :: (enhancedSelectLines img blank color confThr mld bVar bDiff bPortion ws
        ++ [img.length])) := by
    rw [List.chain'_iff_pairwise]
    rw [List.pairwise_cons]
    constructor
    · intro x hx
      rcases List.mem_append.mp hx with h | h
      · exact (hmem x h).1
      · rw [List.mem_singleton] at h
        subst h
        exact hh
    · rw [List.pairwise_append]
      refine ⟨hlt, List.pairwise_singleton _ _, ?_⟩
      intro a ha b hb'
      rw [List.mem_singleton] at hb'
      subst hb'
      exact (hmem a ha).2
  refine ⟨hchain, rfl, ?_⟩
  intro y hy
  have hlast : (0 :: (enhancedSelectLines img blank color confThr mld bVar bDiff
      bPortion ws ++ [img.length])).getLast (List.cons_ne_nil _ _) = img.length :=
    @List.getLast_append_singleton ℕ img.length
      (0 :: enhancedSelectLines img blank color confThr mld bVar bDiff bPortion ws)
  have := pairsOf_cover
    (enhancedSelectLines img blank color confThr mld bVar bDiff bPortion ws
      ++ [img.length]) 0 hchain y (Nat.zero_le y) (by rw [hlast]; exact hy)
  exact this

def zeroImg24 : GrayImg := List.replicate 24 [0]

/-- C1 counterexample: on a 24-row all-zero image the internal detector
finds no lines, but an external blank-region contribution at row 0 is
accepted (confidence 0.7, above the 0.6 threshold), so the boundary list
becomes `0, 0, 24`, which is not strictly increasing, and the section
list contains the empty section `(0, 0)` — refuting the claim "for any
values the two external line detectors may contribute". -/
theorem segmenter_partition_counterexample :
    (enhanced_image_segmentation zeroImg24 [0] [] (3/5) 0 80 40 (1/2) 10).1 = [0] ∧
    ¬ List.Chain' (· < ·)
      (0 :: ((enhanced_image_segmentation zeroImg24 [0] [] (3/5) 0 80 40 (1/2) 10).1
        ++ [zeroImg24.length])) := by
  refine ⟨by decide, ?_⟩
  intro hch
  have h1 : (enhanced_image_segmentation zeroImg24 [0] [] (3/5) 0 80 40 (1/2) 10).1
      = [0] := by decide
  rw [h1] at hch
  simp only [List.cons_append, List.nil_append] at hch
  exact Nat.lt_irrefl 0 (List.chain'_cons.mp hch).1

/-- Witness for C1 at a concrete instance with an in-range external
contribution. -/
theorem segmenter_sections_partition_witness :
    List.Chain' (· < ·)
      (0 :: (enhancedSelectLines zeroImg24 [12] [] (3/5) 0 80 40 (1/2) 10
        ++ [zeroImg24.length])) ∧
    (enhanced_image_segmentation zeroImg24 [12] [] (3/5) 0 80 40 (1/2) 10).2 =
      pairsOf (0 :: (enhancedSelectLines zeroImg24 [12] [] (3/5) 0 80 40 (1/2) 10
        ++ [zeroImg24.length])) ∧
    ∀ y, y < zeroImg24.length →
      ∃! s, s ∈ (enhanced_image_segmentation zeroImg24 [12] [] (3/5) 0 80 40
          (1/2) 10).2 ∧ s.1 ≤ y ∧ y < s.2 :=
  segmenter_sections_partition zeroImg24 [12] [] (3/5) 0 80 40 (1/2) 10
    (by decide) (by decide) (by decide) (by decide)

def img5c4 : GrayImg := [[10], [200], [200], [200], [200]]

/-- C4 (code bug): the border test does NOT compute the absolute
intensity difference the spec prescribes.  `np.abs(upper - window[0])` on
`uint8` rows is the wrap-around difference `(upper - edge) mod 256`
(`np.abs` is the identity on unsigned data), so on a five-row, one-column
image with intensities 10, 200, 200, 200, 200 and window size 1 the
per-column top difference at the single window position is 66 rather than
`|10 - 200| = 190`; with `diff_thr = 100` the code flags no border and
produces no candidate, while the spec's absolute-difference formula flags
a border above the window and produces the candidate at row 1 with
confidence 190 (no edge boost: the row lies at 20% of the height). -/
theorem border_diff_wraparound_bug :
    diffRow [10] [200] = [66] ∧
    diffRowAbsSpec [10] [200] = [190] ∧
    slCandidates img5c4 100 100 (1/2) 1 = [] ∧
    slCandidatesAbsSpec img5c4 100 100 (1/2) 1 = [(1, (190 : PyNum))] := by
  refine ⟨by decide, by decide, by decide, by decide⟩

end ImgSeg

namespace Bbox

open ImgSeg (PyNum)

/-- Python whitespace for `str.strip()`. -/
def pyIsSpace (c : Char) : Bool :=
  c = ' ' || c = '\t' || c = '\n' || c = '\r' || c = '\x0b' || c = '\x0c'

/-- JSON whitespace (space, tab, line feed, carriage return). -/
def jsonIsSpace (c : Char) : Bool :=
  c = ' ' || c = '\t' || c = '\n' || c = '\r'

/-- Python `str.strip()` on a character list. -/
def stripChars (cs : List Char) : List Char :=
  ((cs.dropWhile pyIsSpace).reverse.dropWhile pyIsSpace).reverse

/-- First index of `needle` in `hay` (Python `str.find`, `in`). -/
def findSubAux : List Char → List Char → ℕ → Option ℕ
  | hay, needle, idx =>
    if needle.isPrefixOf hay then some idx
    else match hay with
      | [] => none
      | _ :: rest => findSubAux rest needle (idx + 1)

/-- Last index of `needle` in `hay` (Python `str.rfind`). -/
def rfindSubAux : List Char → List Char → ℕ → Option ℕ → Option ℕ
  | hay, needle, idx, best =>
    let best := if needle.isPrefixOf hay then some idx else best
    match hay with
    | [] => best
    | _ :: rest => rfindSubAux rest needle (idx + 1) best

/-- Python slice `cs[a:b]` for non-negative indices. -/
def pySlice (cs : List Char) (a b : ℕ) : List Char := (cs.drop a).take (b - a)

/-- Python `str.replace` (all non-overlapping occurrences, left to right);
fuelled by the haystack length. -/
def replaceCharsF : ℕ → List Char → List Char → List Char → List Char
  | 0, hay, _, _ => hay
  | _ + 1, [], _, _ => []
  | fuel + 1, c :: rest, old, new =>
    if old ≠ [] ∧ old.isPrefixOf (c :: rest) then
      new ++ replaceCharsF fuel ((c :: rest).drop old.length) old new
    else c :: replaceCharsF fuel rest old new

/-- Python `str.replace` on strings. -/
def pyReplace (s old new : String) : String :=
  String.mk (replaceCharsF s.data.length s.data old.data new.data)

/-- The decimal repair `re.sub(r'(\d+),(\d+)', r'\1.\2', s)`: every
digit-run, comma, digit-run is rewritten with a period; scanning resumes
after each replacement (matches Python's leftmost, non-overlapping
search, in which no match can start inside an already-scanned digit
run). -/
def reSubDigitsF : ℕ → List Char → List Char
  | 0, cs => cs
  | _ + 1, [] => []
  | fuel + 1, c :: rest =>
    if c.isDigit then
      let r1 := (c :: rest).takeWhile (·.isDigit)
      let s1 := (c :: rest).dropWhile (·.isDigit)
      match s1 with
      | ',' :: d :: s2 =>
        if d.isDigit then
          let r2 := (d :: s2).takeWhile (·.isDigit)
          let s3 := (d :: s2).dropWhile (·.isDigit)
          r1 ++ '.' :: (r2 ++ reSubDigitsF fuel s3)
        else r1 ++ reSubDigitsF fuel s1
      | _ => r1 ++ reSubDigitsF fuel s1
    else c :: reSubDigitsF fuel rest

/-- The decimal repair on strings. -/
def reSubDigits (s : String) : String :=
  String.mk (reSubDigitsF s.data.length s.data)

/-- Markdown code-fence stripping of `parse_gemini_response` (helper.py
lines 148-156): strip, then cut between the first fence opener and the
last triple backtick. -/
def stripFences (s : String) : String :=
  let t := stripChars s.data
  let fj : List Char := ['`', '`', '`', 'j', 's', 'o', 'n']
  let f3 : List Char := ['`', '`', '`']
  match findSubAux t fj 0 with
  | some i =>
    let e := (rfindSubAux t f3 0 none).getD 0
    String.mk (stripChars (pySlice t (i + 7) e))
  | none =>
    match findSubAux t f3 0 with
    | some i =>
      let e := (rfindSubAux t f3 0 none).getD 0
      String.mk (stripChars (pySlice t (i + 3) e))
    | none => String.mk t

/-- JSON values, with numbers as exact rationals (`json.loads` output;
Python dicts keep first-insertion order and overwrite duplicate keys,
which the object parser below reproduces). -/
inductive Json : Type where
  | null : Json
  | bool (b : Bool) : Json
  | num (q : PyNum) : Json
  | str (s : String) : Json
  | arr (items : List Json) : Json
  | obj (fields : List (String × Json)) : Json

/-- Hexadecimal digit test (for `\u` escapes). -/
def isHexDigitC (c : Char) : Bool :=
  c.isDigit || (decide ('a' ≤ c) && decide (c ≤ 'f')) ||
    (decide ('A' ≤ c) && decide (c ≤ 'F'))

/-- Numeric value of a digit run. -/
def digitsToNat (ds : List Char) : ℕ :=
  ds.foldl (fun a c => a * 10 + (c.toNat - 48)) 0

/-- Parse a JSON number (sign, integer part with no leading zero,
optional fraction, optional exponent) into an exact rational. -/
def parseNumber (cs : List Char) : Option (PyNum × List Char) :=
  let sgn : ℤ := match cs with | '-' :: _ => -1 | _ => 1
  let s1 := match cs with | '-' :: r => r | _ => cs
  let intDs := s1.takeWhile (·.isDigit)
  let s2 := s1.dropWhile (·.isDigit)
  if intDs = [] then none
  else if 2 ≤ intDs.length ∧ intDs.headD 'x' = '0' then none
  else
    let n0 : ℕ := digitsToNat intDs
    let fracStep : Option (ℕ × ℕ × List Char) :=
      match s2 with
      | '.' :: r =>
        let f := r.takeWhile (·.isDigit)
        if f = [] then none
        else some (digitsToNat f, f.length, r.dropWhile (·.isDigit))
      | _ => some (0, 0, s2)
    match fracStep with
    | none => none
    | some (fv, fk, s3) =>
      let expStep : Option (ℤ × List Char) :=
        match s3 with
        | e :: r =>
          if e = 'e' ∨ e = 'E' then
            let es : ℤ := match r with | '-' :: _ => -1 | _ => 1
            let r2 := match r with | '+' :: rr => rr | '-' :: rr => rr | _ => r
            let eds := r2.takeWhile (·.isDigit)
            if eds = [] then none
            else some (es * digitsToNat eds, r2.dropWhile (·.isDigit))
          else some (0, s3)
        | [] => some (0, s3)
      match expStep with
      | none => none
      | some (e, s4) =>
        let mant : ℤ := sgn * ((n0 * 10 ^ fk + fv : ℕ) : ℤ)
        let v : PyNum :=
          if 0 ≤ e then ⟨mant * 10 ^ e.toNat, 10 ^ fk⟩
          else ⟨mant, (10 : ℤ) ^ fk * 10 ^ (-e).toNat⟩
        some (v, s4)

/-- Parse the remainder of a JSON string literal (the opening quote
already consumed), handling the standard escapes. -/
def parseStringChars : ℕ → List Char → Option (List Char × List Char)
  | 0, _ => none
  | _ + 1, [] => none
  | fuel + 1, c :: rest =>
    if c = '"' then some ([], rest)
    else if c = '\\' then
      match rest with
      | [] => none
      | e :: rest2 =>
        if e = 'u' then
          match rest2 with
          | h1 :: h2 :: h3 :: h4 :: rest3 =>
            if isHexDigitC h1 ∧ isHexDigitC h2 ∧ isHexDigitC h3 ∧ isHexDigitC h4 then
              let hv := fun (h : Char) =>
                if h.isDigit then h.toNat - 48
                else if 'a' ≤ h then h.toNat - 87 else h.toNat - 55
              let code := ((hv h1 * 16 + hv h2) * 16 + hv h3) * 16 + hv h4
              (parseStringChars fuel rest3).map
                (fun pr => (Char.ofNat code :: pr.1, pr.2))
            else none
          | _ => none
        else
          let m : Option Char :=
            if e = '"' then some '"'
            else if e = '\\' then some '\\'
            else if e = '/' then some '/'
            else if e = 'b' then some '\x08'
            else if e = 'f' then some '\x0c'
            else if e = 'n' then some '\n'
            else if e = 'r' then some '\r'
            else if e = 't' then some '\t'
            else none
          match m with
          | none => none
          | some ch =>
            (parseStringChars fuel rest2).map (fun pr => (ch :: pr.1, pr.2))
    else if c.toNat < 32 then none
    else (parseStringChars fuel rest).map (fun pr => (c :: pr.1, pr.2))

/-- Insert a key into a parsed object: a duplicate key overwrites the
value in place (Python `dict` semantics). -/
def objInsert (kvs : List (String × Json)) (k : String) (v : Json) :
    List (String × Json) :=
  if kvs.any (fun kv => kv.1 = k) then
    kvs.map (fun kv => if kv.1 = k then (k, v) else kv)
  else kvs ++ [(k, v)]

/-- Build a Python `dict` from member pairs in document order: a
duplicate key keeps its first position and takes its last value. -/
def pyDict (pairs : List (String × Json)) : List (String × Json) :=
  pairs.foldl (fun kvs kv => objInsert kvs kv.1 kv.2) []

mutual

/-- Recursive-descent JSON value parser, fuelled (the callers pass ample
fuel; fuel is an upper bound on recursion depth plus element count, and
exhaustion means failure, which no in-range input triggers). -/
def parseValue : ℕ → List Char → Option (Json × List Char)
  | 0, _ => none
  | fuel + 1, s =>
    match s.dropWhile jsonIsSpace with
    | [] => none
    | c :: rest =>
      if c = 'n' then
        if ['u', 'l', 'l'].isPrefixOf rest then some (Json.null, rest.drop 3)
        else none
      else if c = 't' then
        if ['r', 'u', 'e'].isPrefixOf rest then some (Json.bool true, rest.drop 3)
        else none
      else if c = 'f' then
        if ['a', 'l', 's', 'e'].isPrefixOf rest then some (Json.bool false, rest.drop 4)
        else none
      else if c = '"' then
        (parseStringChars (rest.length + 1) rest).map
          (fun pr => (Json.str (String.mk pr.1), pr.2))
      else if c = '[' then
        match rest.dropWhile jsonIsSpace with
        | ']' :: rest2 => some (Json.arr [], rest2)
        | _ => (parseArrItems fuel rest).map (fun pr => (Json.arr pr.1, pr.2))
      else if c = '{' then
        match rest.dropWhile jsonIsSpace with
        | '}' :: rest2 => some (Json.obj [], rest2)
        | _ => (parseObjItems fuel rest).map (fun pr => (Json.obj (pyDict pr.1), pr.2))
      else if c = '-' ∨ c.isDigit then
        (parseNumber (c :: rest)).map (fun pr => (Json.num pr.1, pr.2))
      else none

/-- Parse the items of a non-empty JSON array (after the opening
bracket). -/
def parseArrItems : ℕ → List Char → Option (List Json × List Char)
  | 0, _ => none
  | fuel + 1, s =>
    match parseValue fuel s with
    | none => none
    | some (v, s1) =>
      match s1.dropWhile jsonIsSpace with
      | ',' :: s2 =>
        (parseArrItems fuel s2).map (fun pr => (v :: pr.1, pr.2))
      | ']' :: s2 => some ([v], s2)
      | _ => none

/-- Parse the members of a non-empty JSON object (after the opening
brace). -/
def parseObjItems : ℕ → List Char → Option (List (String × Json) × List Char)
  | 0, _ => none
  | fuel + 1, s =>
    match s.dropWhile jsonIsSpace with
    | '"' :: s1 =>
      match parseStringChars (s1.length + 1) s1 with
      | none => none
      | some (key, s2) =>
        match s2.dropWhile jsonIsSpace with
        | ':' :: s3 =>
          match parseValue fuel s3 with
          | none => none
          | some (v, s4) =>
            match s4.dropWhile jsonIsSpace with
            | ',' :: s5 =>
              (parseObjItems fuel s5).map
                (fun pr => ((String.mk key, v) :: pr.1, pr.2))
            | '}' :: s5 => some ([(String.mk key, v)], s5)
            | _ => none
        | _ => none
    | _ => none

end

/-- `json.loads`: parse a complete JSON document, requiring the whole
input (up to trailing whitespace) to be consumed. -/
def json_loads (s : String) : Option Json :=
  match parseValue (2 * s.data.length + 2) s.data with
  | some (v, rest) => if (rest.dropWhile jsonIsSpace).isEmpty then some v else none
  | none => none

/-- Attempt to match the tier-3 extraction pattern
`(brace) \s* "label": \s* "[^"]+", \s* "(box_percent|box_2d)": \s* \[[^\]]+\] \s* (brace)`
at the start of the input; on success return the captured group name and
the rest of the input after the match.  Greedy character classes need no
backtracking here: each is bounded by its following literal. -/
def tier3MatchAt (cs : List Char) : Option (String × List Char) :=
  match cs with
  | '\x7b' :: r0 =>
    let r1 := r0.dropWhile pyIsSpace
    if ['"', 'l', 'a', 'b', 'e', 'l', '"', ':'].isPrefixOf r1 then
      let r2 := (r1.drop 8).dropWhile pyIsSpace
      match r2 with
      | '"' :: r3 =>
        let name := r3.takeWhile (· ≠ '"')
        let r4 := r3.dropWhile (· ≠ '"')
        if name = [] then none
        else
          match r4 with
          | '"' :: ',' :: r5 =>
            let r6 := r5.dropWhile pyIsSpace
            match r6 with
            | '"' :: r7 =>
              let grp : Option (String × List Char) :=
                if ['b', 'o', 'x', '_', 'p', 'e', 'r', 'c', 'e', 'n', 't', '"',
                    ':'].isPrefixOf r7 then
                  some ("box_percent", r7.drop 13)
                else if ['b', 'o', 'x', '_', '2', 'd', '"', ':'].isPrefixOf r7 then
                  some ("box_2d", r7.drop 8)
                else none
              match grp with
              | none => none
              | some (g, r8) =>
                let r9 := r8.dropWhile pyIsSpace
                match r9 with
                | '[' :: r10 =>
                  let content := r10.takeWhile (· ≠ ']')
                  let r11 := r10.dropWhile (· ≠ ']')
                  if content = [] then none
                  else
                    match r11 with
                    | ']' :: r12 =>
                      let r13 := r12.dropWhile pyIsSpace
                      match r13 with
                      | '\x7d' :: r14 => some (g, r14)
                      | _ => none
                    | _ => none
                | _ => none
            | _ => none
          | _ => none
      | _ => none
    else none
  | _ => none

/-- `re.findall` with the tier-3 pattern: leftmost non-overlapping
matches, returning the captured group of each (the pattern has a capture
group, so `findall` yields the group strings `box_percent`/`box_2d`, not
the whole matches). -/
def tier3FindallF : ℕ → List Char → List String
  | 0, _ => []
  | _ + 1, [] => []
  | fuel + 1, c :: rest =>
    match tier3MatchAt (c :: rest) with
    | some (g, r) => g :: tier3FindallF fuel r
    | none => tier3FindallF fuel rest

/-- Tier-3 group extraction over a string. -/
def tier3Findall (s : String) : List String := tier3FindallF s.data.length s.data

/-- Python iteration over a value (`for item in data`): arrays yield
elements, strings yield one-character strings, dicts yield their keys;
numbers, booleans and `None` raise `TypeError`. -/
def pyIter : Json → Option (List Json)
  | Json.arr l => some l
  | Json.str s => some (s.data.map (fun c => Json.str (String.mk [c])))
  | Json.obj kvs => some (kvs.map (fun kv => Json.str kv.1))
  | _ => none

/-- Python `len`: length of arrays, strings and dicts; `TypeError`
otherwise. -/
def pyLen : Json → Option ℕ
  | Json.arr l => some l.length
  | Json.str s => some s.data.length
  | Json.obj kvs => some kvs.length
  | _ => none

/-- Dictionary lookup. -/
def objLookup (kvs : List (String × Json)) (k : String) : Option Json :=
  (kvs.find? (fun kv => kv.1 = k)).map Prod.snd

/-- Python `x / 10` on a JSON value: numbers divide, booleans coerce to
0/1 and divide, everything else raises `TypeError`. -/
def jdiv10 : Json → Option PyNum
  | Json.num q => some (q / (10 : PyNum))
  | Json.bool b => some (((if b then 1 else 0) : PyNum) / 10)
  | _ => none

/-- Standardisation of one parsed item (`parse_gemini_response`,
bbox/helper.py lines 195-206): non-dicts and dicts without `label` are
skipped; a `box_2d` of Python length 4 is unpacked as
`y_min, x_min, y_max, x_max` and converted to
`box_percent = [x_min/10, y_min/10, x_max/10, y_max/10]`; otherwise a
`box_percent` of Python length 4 passes the item through; anything else
is skipped.  `none` models an uncaught exception (a `len` of a number or
a division on a non-numeric unpacked value). -/
def standardizeItem (item : Json) : Option (Option Json) :=
  match item with
  | Json.obj kvs =>
    if (objLookup kvs "label").isSome then
      let elifBranch : Option (Option Json) :=
        match objLookup kvs "box_percent" with
        | some bp =>
          match pyLen bp with
          | none => none
          | some l => if l = 4 then some (some (Json.obj kvs)) else some none
        | none => some none
      match objLookup kvs "box_2d" with
      | some b2 =>
        match pyLen b2 with
        | none => none
        | some l =>
          if l = 4 then
            match pyIter b2 with
            | some [vy1, vx1, vy2, vx2] =>
              match jdiv10 vx1, jdiv10 vy1, jdiv10 vx2, jdiv10 vy2 with
              | some a, some b, some c, some d =>
                some (some (Json.obj [("label", (objLookup kvs "label").getD Json.null),
                  ("box_percent", Json.arr
                    [Json.num a, Json.num b, Json.num c, Json.num d])]))
              | _, _, _, _ => none
            | _ => none
          else elifBranch
      | none => elifBranch
    else some none
  | _ => some none

/-- The standardisation loop over the parsed items. -/
def standardizeLoop : List Json → Option (List Json)
  | [] => some []
  | it :: rest =>
    match standardizeItem it with
    | none => none
    | some none => standardizeLoop rest
    | some (some o) => (standardizeLoop rest).map (fun l => o :: l)

/-- Standardisation of the parsed document (`for item in data: ...`). -/
def standardizeData (d : Json) : Option (List Json) :=
  match pyIter d with
  | none => none
  | some items => standardizeLoop items

/-- The bounding-box response parser `parse_gemini_response`
(bbox/helper.py lines 137-209): strip markdown fences; (1) parse
directly; (2) on failure repair trailing commas before `]` and rewrite
digit,digit to digit.digit, then parse; (3) on failure extract tier-3
regex groups, rebuild an array source from them and parse it, returning
the empty list when that fails too; finally standardise whatever parsed.
`none` models an uncaught exception inside the standardisation loop. -/
def parse_gemini_response (response_text : String) : Option (List Json) :=
  if response_text = "" then some []
  else
    let cleaned := stripFences response_text
    match json_loads cleaned with
    | some d => standardizeData d
    | none =>
      let c2 := reSubDigits (pyReplace (pyReplace cleaned ",\n]" "\n]") ",]" "]")
      match json_loads c2 with
      | some d => standardizeData d
      | none =>
        let ms := tier3Findall c2
        if ms.isEmpty then some []
        else
          match json_loads ("[" ++ String.intercalate "," ms ++ "]") with
          | some d => standardizeData d
          | none => some []

/-- The malformed response of the trailing-comma example. -/
def mal5 : String := "[\x7b\"label\":\"a\",\"box_2d\":[1,2,3,4]\x7d,]"

/-- C5 counterexample: on `[{"label":"a","box_2d":[1,2,3,4]},]` the
parser returns the EMPTY list, not a one-element list: the second-tier
decimal repair rewrites the box to `[1.2,3.4]`, whose length-2 box then
fails the four-element check and the item is dropped. -/
theorem trailing_comma_recovery_counterexample :
    parse_gemini_response mal5 = some [] ∧
    ∀ x : Json, parse_gemini_response mal5 ≠ some [x] := by
  refine ⟨rfl, ?_⟩
  intro x h
  have h2 : some ([] : List Json) = some [x] :=
    ((rfl : parse_gemini_response mal5 = some [])).symm.trans h
  simp at h2

/-- C5, amended: the malformed input does take the second-tier cleanup
path — the direct parse fails, the trailing-comma repair and the
digit,digit → digit.digit repair apply, and the repaired text parses —
but the repair corrupts the integer box `[1,2,3,4]` into the two-element
float list `[1.2,3.4]`, so the standardisation drops the item and the
parser returns the empty list rather than recovering the component. -/
theorem trailing_comma_second_tier :
    json_loads (stripFences mal5) = none ∧
    reSubDigits (pyReplace (pyReplace (stripFences mal5) ",\n]" "\n]") ",]" "]")
      = "[\x7b\"label\":\"a\",\"box_2d\":[1.2,3.4]\x7d]" ∧
    json_loads (reSubDigits (pyReplace (pyReplace (stripFences mal5) ",\n]" "\n]")
        ",]" "]"))
      = some (Json.arr [Json.obj [("label", Json.str "a"),
          ("box_2d", Json.arr [Json.num ⟨12, 10⟩, Json.num ⟨34, 10⟩])]]) ∧
    parse_gemini_response mal5 = some [] :=
  ⟨rfl, rfl, rfl, rfl⟩

/-- Shape of every element the standardisation can emit: an object with
a `label` key and a `box_percent` of Python length 4. -/
def stdShape (item : Json) : Prop :=
  ∃ kvs, item = Json.obj kvs ∧ (objLookup kvs "label").isSome ∧
    ∃ bp, objLookup kvs "box_percent" = some bp ∧ pyLen bp = some 4

theorem standardizeItem_shape (it : Json) (o : Json)
    (h : standardizeItem it = some (some o)) : stdShape o := by
  cases it with
  | obj kvs =>
    simp only [standardizeItem] at h
    split at h
    · next hl =>
      split at h
      · next b2 hb2 =>
        split at h
        · exact absurd h (by simp)
        · next l hlen =>
          split at h
          · next hl4 =>
            split at h
            · next vy1 vx1 vy2 vx2 heq =>
              split at h
              · next a b c d ha hb hc hd =>
                rw [Option.some.injEq, Option.some.injEq] at h
                exact ⟨_, h.symm, by simp [objLookup, List.find?],
                  Json.arr [Json.num a, Json.num b, Json.num c, Json.num d],
                  by simp [objLookup, List.find?], by simp [pyLen]⟩
              · exact absurd h (by simp)
            · exact absurd h (by simp)
          · split at h
            · next bp hbp =>
              split at h
              · exact absurd h (by simp)
              · next l' hlen' =>
                split at h
                · next hl4' =>
                  rw [Option.some.injEq, Option.some.injEq] at h
                  exact ⟨kvs, h.symm, hl, bp, hbp, by rw [hlen', hl4']⟩
                · exact absurd h (by simp)
            · exact absurd h (by simp)
      · split at h
        · next bp hbp =>
          split at h
          · exact absurd h (by simp)
          · next l' hlen' =>
            split at h
            · next hl4' =>
              rw [Option.some.injEq, Option.some.injEq] at h
              exact ⟨kvs, h.symm, ‹(objLookup kvs "label").isSome›, bp, hbp,
                by rw [hlen', hl4']⟩
            · exact absurd h (by simp)
        · exact absurd h (by simp)
    · exact absurd h (by simp)
  | null => exact absurd h (by simp [standardizeItem])
  | bool b => exact absurd h (by simp [standardizeItem])
  | num q => exact absurd h (by simp [standardizeItem])
  | str s => exact absurd h (by simp [standardizeItem])
  | arr l => exact absurd h (by simp [standardizeItem])

theorem standardizeLoop_shape :
    ∀ (items out : List Json), standardizeLoop items = some out →
      ∀ item ∈ out, stdShape item := by
  intro items
  induction items with
  | nil =>
    intro out h item hm
    rw [standardizeLoop, Option.some.injEq] at h
    rw [← h] at hm
    simp at hm
  | cons it rest ih =>
    intro out h item hm
    rw [standardizeLoop] at h
    split at h
    · exact absurd h (by simp)
    · exact ih out h item hm
    · next o hstd =>
      rw [Option.map_eq_some'] at h
      obtain ⟨out', hrest, hcons⟩ := h
      rw [← hcons] at hm
      rcases List.mem_cons.mp hm with hmm | hmm
      · exact hmm ▸ standardizeItem_shape it o hstd
      · exact ih out' hrest item hmm

theorem standardizeData_shape (d : Json) (out : List Json)
    (h : standardizeData d = some out) : ∀ item ∈ out, stdShape item := by
  rw [standardizeData] at h
  split at h
  · exact absurd h (by simp)
  · exact standardizeLoop_shape _ out h

/-- C10, amended: every element of a list returned by the bounding-box
response parser is an object containing a `label` key and a
`box_percent` of Python length exactly four (four VALUES, not
necessarily four numbers — see the counterexample); parsed items that
are not objects or lack a `label` are silently dropped; and an item
whose `box_2d` is an array of four numbers `[y_min, x_min, y_max,
x_max]` is converted to the record with
`box_percent = [x_min/10, y_min/10, x_max/10, y_max/10]`. -/
theorem parser_output_shape :
    (∀ (s : String) (out : List Json), parse_gemini_response s = some out →
      ∀ item ∈ out, stdShape item) ∧
    (∀ (kvs : List (String × Json)) (lbl : Json) (a b c d : ImgSeg.PyNum),
      objLookup kvs "label" = some lbl →
      objLookup kvs "box_2d" =
        some (Json.arr [Json.num a, Json.num b, Json.num c, Json.num d]) →
      standardizeItem (Json.obj kvs) =
        some (some (Json.obj [("label", lbl), ("box_percent", Json.arr
          [Json.num (b / 10), Json.num (a / 10),
           Json.num (d / 10), Json.num (c / 10)])]))) ∧
    (∀ item : Json, (∀ kvs, item ≠ Json.obj kvs) →
      standardizeItem item = some none) ∧
    (∀ kvs : List (String × Json), objLookup kvs "label" = none →
      standardizeItem (Json.obj kvs) = some none) := by
  refine ⟨?_, ?_, ?_, ?_⟩
  · intro s out h item hm
    simp only [parse_gemini_response] at h
    split at h
    · rw [Option.some.injEq] at h
      rw [← h] at hm
      simp at hm
    · split at h
      · exact standardizeData_shape _ out h item hm
      · split at h
        · exact standardizeData_shape _ out h item hm
        · split at h
          · rw [Option.some.injEq] at h
            rw [← h] at hm
            simp at hm
          · split at h
            · exact standardizeData_shape _ out h item hm
            · rw [Option.some.injEq] at h
              rw [← h] at hm
              simp at hm
  · intro kvs lbl a b c d hl hb
    simp only [standardizeItem, hl, hb, Option.isSome_some, if_true, pyLen,
      pyIter, jdiv10, Option.getD_some]
    rfl
  · intro item h
    cases item with
    | obj kvs => exact absurd rfl (h kvs)
    | null => rfl
    | bool b => rfl
    | num q => rfl
    | str s => rfl
    | arr l => rfl
  · intro kvs hl
    simp only [standardizeItem, hl, Option.isSome_none, Bool.false_eq_true,
      if_false]

/-- The response of the C10 counterexample: a valid JSON array whose one
item carries a `box_percent` of four booleans. -/
def boolBoxResponse : String :=
  "[\x7b\"label\":\"a\",\"box_percent\":[true,true,true,true]\x7d]"

/-- C10 counterexample: an item whose `box_percent` holds four booleans
passes the length-4 check and is returned unchanged, so the returned
`box_percent` does NOT consist of four numbers. -/
theorem parser_output_numbers_counterexample :
    parse_gemini_response boolBoxResponse =
      some [Json.obj [("label", Json.str "a"),
        ("box_percent", Json.arr [Json.bool true, Json.bool true,
          Json.bool true, Json.bool true])]] ∧
    ∀ q : ImgSeg.PyNum, Json.bool true ≠ Json.num q := by
  refine ⟨rfl, ?_⟩
  intro q h
  exact Json.noConfusion h

/-- Witness for C10 at the concrete boolean-box response. -/
theorem parser_output_shape_witness :
    stdShape (Json.obj [("label", Json.str "a"),
      ("box_percent", Json.arr [Json.bool true, Json.bool true,
        Json.bool true, Json.bool true])]) :=
  parser_output_shape.1 boolBoxResponse
    [Json.obj [("label", Json.str "a"),
      ("box_percent", Json.arr [Json.bool true, Json.bool true,
        Json.bool true, Json.bool true])]]
    rfl _ (List.mem_singleton_self _)

/-- A component as the nested-element filter sees it: its `label` and its
`box_percent` coordinate list (the only keys the filter reads; Python
`==` on the dicts compares these fields, with float equality on the
coordinates). -/
structure BComp where
  label : String
  box_percent : List ImgSeg.PyNum

/-- Python `str.lower()` (the labels here are ASCII). -/
def pyLower (s : String) : String := String.mk (s.data.map Char.toLower)

/-- The parent-class labels of `filter_nested_elements`. -/
def parent_elements : List String :=
  ["div", "header", "footer", "sidebar", "navbar", "search-bar", "form"]

/-- A lowercased label is parent-class when it equals a parent label or
starts with one followed by an underscore. -/
def isParentLabel (labelLower : String) : Bool :=
  parent_elements.any (fun p =>
    labelLower = p || (p ++ "_").isPrefixOf labelLower)

/-- Python `'image' in label`. -/
def containsImage (labelLower : String) : Bool :=
  (findSubAux labelLower.data ['i', 'm', 'a', 'g', 'e'] 0).isSome

/-- Numeric (float) equality of two embedded rationals. -/
def pyEqB (a b : ImgSeg.PyNum) : Bool := decide (a.num * b.den = b.num * a.den)

/-- Elementwise float equality of two coordinate lists (Python `==` on
lists of floats). -/
def listPyEq : List ImgSeg.PyNum → List ImgSeg.PyNum → Bool
  | [], [] => true
  | x :: xs, y :: ys => pyEqB x y && listPyEq xs ys
  | _, _ => false

/-- Python `==` on two components (dict equality over the two keys). -/
def bcompEq (a b : BComp) : Bool :=
  decide (a.label = b.label) && listPyEq a.box_percent b.box_percent

/-- Containment of `c` in parent box `p` within the 0.5 margin, and not
box-identical (bbox/helper.py lines 309-313). -/
def nestedIn (c p : BComp) : Bool :=
  let b := fun i => c.box_percent.getD i (0 : ImgSeg.PyNum)
  let q := fun i => p.box_percent.getD i (0 : ImgSeg.PyNum)
  let margin : ImgSeg.PyNum := ⟨5, 10⟩
  decide (q 0 - margin ≤ b 0) && decide (b 2 ≤ q 2 + margin) &&
    decide (q 1 - margin ≤ b 1) && decide (b 3 ≤ q 3 + margin) &&
    !(pyEqB (b 0) (q 0) && pyEqB (b 1) (q 1) && pyEqB (b 2) (q 2) &&
      pyEqB (b 3) (q 3))

/-- The parent-class components of a component list. -/
def parentBoxes (components : List BComp) : List BComp :=
  components.filter (fun c => isParentLabel (pyLower c.label))

/-- Whether a component is kept: image-labelled components always are;
any other component is kept iff for every parent box it equals it or is
not nested inside it. -/
def keepComp (parent_boxes : List BComp) (c : BComp) : Bool :=
  if containsImage (pyLower c.label) then true
  else parent_boxes.all (fun p => bcompEq c p || !(nestedIn c p))

/-- The nested-element filter (bbox/helper.py lines 274-324). -/
def filter_nested_elements (components : List BComp) : List BComp :=
  components.filter (keepComp (parentBoxes components))

/-- C6: the nested-element filter is idempotent — filtering its own
output returns it unchanged (each survivor was kept against every parent
box of the full list, and the surviving parent boxes are a subset of
those). -/
theorem filter_nested_idempotent (components : List BComp) :
    filter_nested_elements (filter_nested_elements components) =
      filter_nested_elements components := by
  rw [filter_nested_elements, List.filter_eq_self]
  intro c hc
  have hk1 : keepComp (parentBoxes components) c = true := List.of_mem_filter hc
  rw [keepComp] at hk1 ⊢
  by_cases him : containsImage (pyLower c.label) = true
  · rw [if_pos him]
  · rw [if_neg him] at hk1 ⊢
    rw [List.all_eq_true] at hk1 ⊢
    intro p hp
    rw [parentBoxes] at hp
    have hpF : p ∈ filter_nested_elements components := List.mem_of_mem_filter hp
    have hpP := List.of_mem_filter hp
    have hpc : p ∈ components := List.mem_of_mem_filter hpF
    exact hk1 p (List.mem_filter.mpr ⟨hpc, hpP⟩)

end Bbox

namespace Desc

open ImgSeg (PyNum)
open Bbox (pyLower)

/-- Truncation toward zero, Python `int()` on a float (exact here). -/
def pyTrunc (a : PyNum) : ℤ := Int.tdiv a.num a.den

/-- Component coordinates `{y1, x1, y2, x2}`. -/
structure Coords where
  y1 : PyNum
  x1 : PyNum
  y2 : PyNum
  x2 : PyNum

/-- Media coordinates `{y_min, x_min, y_max, x_max}`. -/
structure MCoords where
  y_min : PyNum
  x_min : PyNum
  y_max : PyNum
  x_max : PyNum

/-- The style record `_process_component` installs when absent
(`{"width": ..., "height": ..., "colorPalette": []}`). -/
structure Styles where
  width : PyNum
  height : PyNum
  colorPalette : List String

/-- Four offsets keyed `top`/`right`/`bottom`/`left`. -/
structure Percents where
  top : PyNum
  right : PyNum
  bottom : PyNum
  left : PyNum

/-- The layout record of a component: `%_position_parent`,
`%_position_body` and the joined `tailwind_classes`. -/
structure LayoutRec where
  posParent : Percents
  posBody : Percents
  tailwind : String

/-- The layout record of a media item: pixel-based `position_parent` and
`position_body` plus the joined `tailwind_classes`. -/
structure MediaLayout where
  positionParent : Percents
  positionBody : Percents
  tailwind : String

/-- A media tracking entry
(`{original_label, coordinates, file_path, type}`), later annotated with
styles and layout by `_process_media_element`. -/
structure MediaItem where
  original_label : String
  mcoords : Option MCoords
  file_path : String
  mtype : String
  mstyles : Option Styles
  mlayout : Option MediaLayout

mutual
/-- A component of the hierarchical structure
(`{id, type, coordinates, description}`); `coordinates` or `description`
may be absent, matching dict-key presence. -/
inductive Comp : Type where
  | mk : String → String → Option Coords → Option Descr → Comp
/-- A description record
(`{type, description, content: {text, media}, children}`), later
annotated with `styles` and `layout`. -/
inductive Descr : Type where
  | mk : String → String → String → List MediaItem → List Comp →
      Option Styles → Option LayoutRec → Descr
end

def Comp.cid : Comp → String
  | .mk i _ _ _ => i

def Comp.ctype : Comp → String
  | .mk _ t _ _ => t

def Comp.coords : Comp → Option Coords
  | .mk _ _ c _ => c

def Comp.descr : Comp → Option Descr
  | .mk _ _ _ d => d

def Descr.dtype : Descr → String
  | .mk t _ _ _ _ _ _ => t

def Descr.dtext : Descr → String
  | .mk _ _ x _ _ _ _ => x

def Descr.media : Descr → List MediaItem
  | .mk _ _ _ m _ _ _ => m

def Descr.children : Descr → List Comp
  | .mk _ _ _ _ c _ _ => c

def Descr.styles : Descr → Option Styles
  | .mk _ _ _ _ _ s _ => s

def Descr.layout : Descr → Option LayoutRec
  | .mk _ _ _ _ _ _ l => l

/-- A flat input element of `convert_json_structure`
(`{bbox, label, description, text}` in 0-1000 space). -/
structure Element where
  label : String
  bbox : MCoords
  edescription : Option String
  etext : Option String

/-- Containment with a 5-unit margin (`_is_contained_within`,
description_generation/helper.py lines 208-225). -/
def _is_contained_within (child parentB : MCoords) : Bool :=
  decide (parentB.y_min - 5 ≤ child.y_min) &&
    decide (parentB.x_min - 5 ≤ child.x_min) &&
    decide (child.y_max ≤ parentB.y_max + 5) &&
    decide (child.x_max ≤ parentB.x_max + 5)

/-- Box area `(y_max - y_min) * (x_max - x_min)`. -/
def boxArea (b : MCoords) : PyNum := (b.y_max - b.y_min) * (b.x_max - b.x_min)

/-- The default element (never read on in-range indices). -/
def defaultElement : Element := ⟨"", ⟨0, 0, 0, 0⟩, none, none⟩

/-- Find the immediate parent of element `i`: among all other elements
whose box contains it, the first one of smallest area (Python `min`
returns the first minimum); `none` when no element contains it
(`_find_parent_index`, helper.py lines 227-257). -/
def _find_parent_index (i : ℕ) (elements : List Element) : Option ℕ :=
  let elem := elements.getD i defaultElement
  let potential := elements.enum.filter (fun ie =>
    decide (ie.1 ≠ i) && _is_contained_within elem.bbox ie.2.bbox)
  match potential with
  | [] => none
  | first :: rest =>
    some (rest.foldl (fun best ie =>
      if boxArea ie.2.bbox < boxArea best.2.bbox then ie else best) first).1

/-- The media-typed labels. -/
def mediaLabels : List String := ["image", "logo", "icon"]

/-- The tracking entry of media element `m` in the no-source-image branch
of `convert_json_structure` (helper.py lines 367-391). -/
def trackingEntry (elements : List Element) (m : ℕ) : MediaItem :=
  let e := elements.getD m defaultElement
  { original_label := e.label
    mcoords := some e.bbox
    file_path := "assets/image_" ++ toString m ++ ".png"
    mtype := pyLower e.label
    mstyles := none
    mlayout := none }

/-- Indices of the media-typed elements. -/
def mediaIndicesAll (elements : List Element) : List ℕ :=
  (List.range elements.length).filter
    (fun i => mediaLabels.contains (pyLower (elements.getD i defaultElement).label))

/-- The parent index of every element. -/
def parentIndexOf (elements : List Element) (i : ℕ) : Option ℕ :=
  _find_parent_index i elements

/-- `children_indices` of element `j` (in index order, as the source's
single ascending pass appends them). -/
def childrenIndicesOf (elements : List Element) (j : ℕ) : List ℕ :=
  (List.range elements.length).filter (fun i => parentIndexOf elements i = some j)

/-- `media_indices` of element `j`: its media-typed children. -/
def mediaIndicesOf (elements : List Element) (j : ℕ) : List ℕ :=
  (mediaIndicesAll elements).filter (fun m => parentIndexOf elements m = some j)

/-- `_build_component_structure` (helper.py lines 396-436), fuelled by
the number of elements (parent links form a forest on the reachable part,
so the recursion depth is bounded by it). -/
def buildComponent (elements : List Element) : ℕ → ℕ → Comp
  | 0, _ => Comp.mk "" "" none none
  | fuel + 1, i =>
    let e := elements.getD i defaultElement
    let selfMedia := if mediaLabels.contains (pyLower e.label)
      then [trackingEntry elements i] else []
    let regMedia := (mediaIndicesOf elements i).map (trackingEntry elements)
    let childIdx := (childrenIndicesOf elements i).filter
      (fun c => !(mediaIndicesOf elements i).contains c)
    let children := childIdx.map (buildComponent elements fuel)
    Comp.mk ("comp_" ++ toString (i + 1)) e.label
      (some ⟨ImgSeg.PyNum.ofInt (pyTrunc e.bbox.y_min),
             ImgSeg.PyNum.ofInt (pyTrunc e.bbox.x_min),
             ImgSeg.PyNum.ofInt (pyTrunc e.bbox.y_max),
             ImgSeg.PyNum.ofInt (pyTrunc e.bbox.x_max)⟩)
      (some (Descr.mk e.label (e.edescription.getD "") (e.etext.getD "")
        (selfMedia ++ regMedia) children none none))

/-- `convert_json_structure` without a source image (helper.py lines
259-444): identify parents, collect media, and materialise one tree per
parentless component, keyed by its id. -/
def convert_json_structure (elements : List Element) : List (String × Comp) :=
  let roots := (List.range elements.length).filter
    (fun i => parentIndexOf elements i = none)
  roots.map (fun i =>
    ("comp_" ++ toString (i + 1), buildComponent elements elements.length i))

/-- A pair of identical generic components for the mutual-containment
instance. -/
def dupElem : Element := ⟨"div", ⟨0, 0, 100, 100⟩, none, none⟩

/-- C9: the output forest is exactly what children links reach from the
parentless components — the top level is keyed exactly by the parentless
components, and every built node's children are exactly the builds of
its non-media children links; in particular two components with
identical boxes are each assigned the other as parent, neither is a
root, and the returned hierarchy is empty — both are silently dropped. -/
theorem hierarchy_roots_and_mutual_containment :
    (∀ elements : List Element, (convert_json_structure elements).map Prod.fst =
      ((List.range elements.length).filter
        (fun i => parentIndexOf elements i = none)).map
        (fun i => "comp_" ++ toString (i + 1))) ∧
    (∀ (elements : List Element) (fuel i : ℕ),
      ((buildComponent elements (fuel + 1) i).descr.map Descr.children).getD [] =
        ((childrenIndicesOf elements i).filter
          (fun c => !(mediaIndicesOf elements i).contains c)).map
          (buildComponent elements fuel)) ∧
    (∀ (elements : List Element) (fuel i : ℕ),
      (buildComponent elements (fuel + 1) i).cid = "comp_" ++ toString (i + 1)) ∧
    _find_parent_index 0 [dupElem, dupElem] = some 1 ∧
    _find_parent_index 1 [dupElem, dupElem] = some 0 ∧
    convert_json_structure [dupElem, dupElem] = [] := by
  refine ⟨?_, fun elements fuel i => rfl, fun elements fuel i => rfl, rfl, rfl, rfl⟩
  intro elements
  rw [convert_json_structure, List.map_map]
  rfl

def Descr.ddesc : Descr → String
  | .mk _ x _ _ _ _ _ => x

/-- Python truthiness of a number (`if parent_height else 0`). -/
def pyNonzero (a : PyNum) : Bool := decide (a.num ≠ 0)

/-- Round half to even at the integer (Python `round`, exact values). -/
def halfEvenRound (a : PyNum) : ℤ :=
  let f := Int.fdiv a.num a.den
  let r : PyNum := a - ImgSeg.PyNum.ofInt f
  if r < (⟨1, 2⟩ : PyNum) then f
  else if (⟨1, 2⟩ : PyNum) < r then f + 1
  else if f % 2 = 0 then f else f + 1

/-- Python `round(x, 2)`. -/
def round2 (a : PyNum) : PyNum := ⟨halfEvenRound (a * 100), 100⟩

/-- Rendering of a number inside a tailwind class string (the exact
float formatting is irrelevant here: the only string test the source
performs on these classes is list membership of "absolute", and every
rendered class starts with a different prefix). -/
def numRender (a : PyNum) : String := toString a.num ++ "/" ++ toString a.den

/-- The always-absolute component types of `_determine_positioning`. -/
def absolute_components : List String :=
  ["modal", "tooltip", "dropdown", "popup", "overlay", "dialog", "menu"]

/-- The generic container parent types of `_determine_positioning`. -/
def absolute_container_parents : List String :=
  ["card", "container", "section", "article", "main", "div", "header", "footer"]

/-- `parent.get("description", {}).get("children", [])`. -/
def childrenOf (c : Comp) : List Comp :=
  match c.descr with
  | some d => d.children
  | none => []

/-- Sibling-overlap test (`_has_overlap_with_siblings`, helper.py lines
669-708): some child of the parent with a different id and coordinates
present strictly overlaps the component on both axes. -/
def _has_overlap_with_siblings (component parent : Comp) : Bool :=
  match component.coords with
  | none => false
  | some cc =>
    (childrenOf parent).any (fun sib =>
      if sib.cid = component.cid then false
      else
        match sib.coords with
        | none => false
        | some sc =>
          decide (cc.x1 < sc.x2) && decide (sc.x1 < cc.x2) &&
            decide (cc.y1 < sc.y2) && decide (sc.y1 < cc.y2))

/-- Positioning-strategy decision (`_determine_positioning`, helper.py
lines 637-667). -/
def _determine_positioning (component parent : Comp) : String :=
  let component_type := pyLower component.ctype
  let parent_type := pyLower parent.ctype
  let has_overlap := _has_overlap_with_siblings component parent
  if has_overlap then "absolute"
  else if absolute_components.contains component_type then "absolute"
  else if absolute_container_parents.contains parent_type then
    (if (childrenOf parent).length ≤ 1 then "relative" else "absolute")
  else "relative"

/-- The fixed 1000-square viewport. -/
def viewportCoords : Coords := ⟨0, 0, 1000, 1000⟩

/-- `component["coordinates"] if "coordinates" in component else {}`,
with each field then read through `.get(key, 0)`. -/
def coordsOrEmpty (c : Comp) : Coords := c.coords.getD ⟨0, 0, 0, 0⟩

/-- The annotation `_process_component` installs (helper.py lines
499-565): styles when absent, the two percentage records and the
tailwind classes, with `top`/`bottom` and `left`/`right` chosen by the
smaller offset when absolutely positioned under a parent. -/
def buildProcessed (component : Comp) (d : Descr) (pcoords : Coords)
    (positioning : String) (hasParent : Bool) : Comp :=
  let co := coordsOrEmpty component
  let width := co.x2 - co.x1
  let height := co.y2 - co.y1
  let styl := d.styles.getD ⟨width, height, []⟩
  let pw := pcoords.x2 - pcoords.x1
  let ph := pcoords.y2 - pcoords.y1
  let top_percent := if pyNonzero ph then round2 ((co.y1 - pcoords.y1) / ph * 100) else 0
  let left_percent := if pyNonzero pw then round2 ((co.x1 - pcoords.x1) / pw * 100) else 0
  let right_percent := if pyNonzero pw then round2 ((pcoords.x2 - co.x2) / pw * 100) else 0
  let bottom_percent := if pyNonzero ph then round2 ((pcoords.y2 - co.y2) / ph * 100) else 0
  let body_top := round2 (co.y1 / 1000 * 100)
  let body_left := round2 (co.x1 / 1000 * 100)
  let body_right := round2 ((1000 - co.x2) / 1000 * 100)
  let body_bottom := round2 ((1000 - co.y2) / 1000 * 100)
  let width_percent := if pyNonzero pw then round2 (width / pw * 100) else 0
  let height_percent := if pyNonzero ph then round2 (height / ph * 100) else 0
  let tw1 := [positioning, "w-[" ++ numRender width_percent ++ "%]",
    "h-[" ++ numRender height_percent ++ "%]"]
  let tw := if hasParent ∧ tw1.contains "absolute" = true then
      tw1 ++ [(if top_percent < bottom_percent then
          "top-[" ++ numRender top_percent ++ "%]"
        else "bottom-[" ++ numRender bottom_percent ++ "%]"),
        (if left_percent < right_percent then
          "left-[" ++ numRender left_percent ++ "%]"
        else "right-[" ++ numRender right_percent ++ "%]")]
    else tw1
  Comp.mk component.cid component.ctype component.coords
    (some (Descr.mk d.dtype d.ddesc d.dtext d.media d.children (some styl)
      (some (LayoutRec.mk
        ⟨top_percent, right_percent, bottom_percent, left_percent⟩
        ⟨body_top, body_right, body_bottom, body_left⟩
        (String.intercalate " " tw)))))

/-- `_process_component` (helper.py lines 484-565): a component without a
description is returned untouched; otherwise it is annotated against its
parent coordinates (the viewport at top level); a parent without
coordinates raises `KeyError` (`none`). -/
def _process_component (component : Comp) (parent : Option Comp) : Option Comp :=
  match component.descr with
  | none => some component
  | some d =>
    match parent with
    | none => some (buildProcessed component d viewportCoords "relative" false)
    | some p =>
      match p.coords with
      | none => none
      | some pcoords =>
        some (buildProcessed component d pcoords
          (_determine_positioning component p) true)

/-- `_process_media_element` (helper.py lines 567-635): a media item
without coordinates is returned untouched; otherwise it gets styles when
absent and an always-absolute pixel-offset layout; a parent component
without coordinates raises `KeyError`. -/
def _process_media_element (media : MediaItem) (parentComp : Comp) :
    Option MediaItem :=
  match media.mcoords with
  | none => some media
  | some mc =>
    let width := mc.x_max - mc.x_min
    let height := mc.y_max - mc.y_min
    let styl := media.mstyles.getD ⟨width, height, []⟩
    match parentComp.coords with
    | none => none
    | some pc =>
      let top_px := mc.y_min - pc.y1
      let left_px := mc.x_min - pc.x1
      let right_px := pc.x2 - mc.x_max
      let bottom_px := pc.y2 - mc.y_max
      let tw := ["absolute", "w-[" ++ numRender width ++ "px]",
        "h-[" ++ numRender height ++ "px]",
        "top-[" ++ numRender top_px ++ "px]",
        "left-[" ++ numRender left_px ++ "px]"]
      some ⟨media.original_label, media.mcoords, media.file_path, media.mtype,
        some styl,
        some ⟨⟨top_px, right_px, bottom_px, left_px⟩,
          ⟨mc.y_min, 1000 - mc.x_max, 1000 - mc.y_max, mc.x_min⟩,
          String.intercalate " " tw⟩⟩

/-- Replace a component's description. -/
def setDescr (c : Comp) (d : Descr) : Comp := Comp.mk c.cid c.ctype c.coords (some d)

/-- The media pass of `process_component_structure` over one top-level
component (helper.py lines 474-476). -/
def processMediaList (c : Comp) : Option Comp :=
  match c.descr with
  | none => some c
  | some d =>
    (d.media.mapM (fun m => _process_media_element m c)).map
      (fun ms => setDescr c (Descr.mk d.dtype d.ddesc d.dtext ms d.children
        d.styles d.layout))

/-- The child pass of `process_component_structure` over one top-level
component (helper.py lines 478-480): each direct child is annotated with
the (already annotated) top-level component as parent; the recursion
stops there — grandchildren are never visited. -/
def processChildren (c : Comp) : Option Comp :=
  match c.descr with
  | none => some c
  | some d =>
    (d.children.mapM (fun ch => _process_component ch (some c))).map
      (fun chs => setDescr c (Descr.mk d.dtype d.ddesc d.dtext d.media chs
        d.styles d.layout))

/-- The Layout Synthesizer `process_component_structure` (helper.py lines
447-482): each top-level component is annotated against the viewport,
then its media items, then its direct children against it. -/
def process_component_structure (data : List (String × Comp)) :
    Option (List (String × Comp)) :=
  data.mapM (fun kv => do
    let c1 ← _process_component kv.2 none
    let c2 ← processMediaList c1
    let c3 ← processChildren c2
    pure (kv.1, c3))

/-- C7: a component whose box strictly overlaps the box of a sibling (a
child of the parent with a different id and coordinates present) on both
axes resolves to `absolute`; and a component of a type outside the
floating set that is the only child of a `div` parent resolves to
`relative`. -/
theorem determine_positioning_spec :
    (∀ (component parent sib : Comp) (cc sc : Coords),
      component.coords = some cc → sib ∈ childrenOf parent →
      sib.cid ≠ component.cid → sib.coords = some sc →
      cc.x1 < sc.x2 → sc.x1 < cc.x2 → cc.y1 < sc.y2 → sc.y1 < cc.y2 →
      _determine_positioning component parent = "absolute") ∧
    (∀ (component parent c0 : Comp),
      pyLower parent.ctype = "div" →
      childrenOf parent = [c0] → c0.cid = component.cid →
      absolute_components.contains (pyLower component.ctype) = false →
      _determine_positioning component parent = "relative") := by
  constructor
  · intro component parent sib cc sc hcc hmem hid hsc hx1 hx2 hy1 hy2
    have hov : _has_overlap_with_siblings component parent = true := by
      rw [_has_overlap_with_siblings, hcc]
      rw [List.any_eq_true]
      refine ⟨sib, hmem, ?_⟩
      rw [if_neg hid, hsc]
      simp only [Bool.and_eq_true, decide_eq_true_eq]
      exact ⟨⟨⟨hx1, hx2⟩, hy1⟩, hy2⟩
    rw [_determine_positioning, hov]
    rfl
  · intro component parent c0 hdiv hch hcid habs
    have hov : _has_overlap_with_siblings component parent = false := by
      rw [_has_overlap_with_siblings]
      cases hco : component.coords with
      | none => rfl
      | some cc =>
        rw [hch]
        simp only [List.any_cons, List.any_nil, Bool.or_false]
        rw [if_pos hcid]
    rw [_determine_positioning, hov, habs]
    simp only [Bool.false_eq_true, if_false, hdiv, hch]
    rfl

/-- A component strictly overlapping its sibling. -/
def wComp1 : Comp := Comp.mk "c1" "text" (some ⟨0, 0, 50, 50⟩) none

/-- The overlapping sibling. -/
def wSib : Comp := Comp.mk "c2" "text" (some ⟨10, 10, 60, 60⟩) none

/-- A `div` parent holding the two overlapping children. -/
def wParent : Comp := Comp.mk "p" "div" (some ⟨0, 0, 100, 100⟩)
  (some (Descr.mk "div" "" "" [] [wComp1, wSib] none none))

/-- A lone child of a `div` parent. -/
def wOnly : Comp := Comp.mk "c3" "text" (some ⟨0, 0, 50, 50⟩) none

/-- The `div` parent holding only `wOnly`. -/
def wParent2 : Comp := Comp.mk "p2" "div" (some ⟨0, 0, 100, 100⟩)
  (some (Descr.mk "div" "" "" [] [wOnly] none none))

/-- Witness for C7 at the two concrete configurations. -/
theorem determine_positioning_spec_witness :
    _determine_positioning wComp1 wParent = "absolute" ∧
    _determine_positioning wOnly wParent2 = "relative" :=
  ⟨determine_positioning_spec.1 wComp1 wParent wSib ⟨0, 0, 50, 50⟩ ⟨10, 10, 60, 60⟩
      rfl (by exact List.mem_cons_of_mem _ (List.mem_singleton_self _))
      (by decide) rfl (by decide) (by decide) (by decide) (by decide),
    determine_positioning_spec.2 wOnly wParent2 wOnly rfl rfl rfl (by decide)⟩

theorem mapM_mem_option {α β : Type} (f : α → Option β) :
    ∀ (l : List α) (out : List β), l.mapM f = some out →
      ∀ b ∈ out, ∃ a ∈ l, f a = some b := by
  intro l
  induction l with
  | nil =>
    intro out h b hb
    rw [List.mapM_nil] at h
    cases h
    simp at hb
  | cons a rest ih =>
    intro out h b hb
    rw [List.mapM_cons] at h
    cases hfa : f a with
    | none => rw [hfa] at h; simp at h
    | some x =>
      rw [hfa] at h
      cases hrest : rest.mapM f with
      | none => rw [hrest] at h; simp at h
      | some xs =>
        rw [hrest] at h
        simp only [Option.bind_some, Option.pure_def, Option.bind_eq_bind,
          Option.some_bind] at h
        cases h
        rcases List.mem_cons.mp hb with hb | hb
        · exact ⟨a, List.mem_cons_self _ _, hb ▸ hfa⟩
        · obtain ⟨a', ha', hfa'⟩ := ih xs hrest b hb
          exact ⟨a', List.mem_cons_of_mem _ ha', hfa'⟩

theorem processComponent_layoutOnly (c : Comp) (p : Option Comp) (c' : Comp)
    (h : _process_component c p = some c') :
    ∀ d', c'.descr = some d' →
      d'.layout.isSome = true ∧ d'.styles.isSome = true := by
  intro d' hd'
  rw [_process_component] at h
  split at h
  · next hdc =>
    cases h
    rw [hdc] at hd'
    cases hd'
  · next d0 hdc =>
    split at h
    · cases h
      rw [show (buildProcessed c d0 viewportCoords "relative" false).descr =
        some (Descr.mk d0.dtype d0.ddesc d0.dtext d0.media d0.children _ _)
        from rfl] at hd'
      cases hd'
      exact ⟨rfl, rfl⟩
    · next pp =>
      split at h
      · cases h
      · next pcoords hpc =>
        cases h
        rw [show (buildProcessed c d0 pcoords
          (_determine_positioning c pp) true).descr =
          some (Descr.mk d0.dtype d0.ddesc d0.dtext d0.media d0.children _ _)
          from rfl] at hd'
        cases hd'
        exact ⟨rfl, rfl⟩

theorem processMediaElement_layout (m0 : MediaItem) (pc : Comp) (m : MediaItem)
    (h : _process_media_element m0 pc = some m) (hc : m.mcoords.isSome = true) :
    m.mlayout.isSome = true ∧ m.mstyles.isSome = true := by
  rw [_process_media_element] at h
  split at h
  · next hm0 =>
    cases h
    rw [hm0] at hc
    cases hc
  · next mc hm0 =>
    split at h
    · cases h
    · cases h
      exact ⟨rfl, rfl⟩

/-- C2, amended: for every input on which the Layout Synthesizer
completes, every TOP-LEVEL component with a description receives the
styles record and the percentage layout record, every media item with
coordinates attached to a top-level component receives its styles and
its pixel-based layout record, and every DIRECT child with a description
receives the styles and percentage layout records.  (Deeper descendants
are never visited — see the counterexample — so the unamended "every
depth" claim fails.) -/
theorem process_structure_annotates (data out : List (String × Comp))
    (h : process_component_structure data = some out) :
    ∀ kc ∈ out, ∀ d : Descr, (kc.2).descr = some d →
      d.layout.isSome = true ∧ d.styles.isSome = true ∧
      (∀ m ∈ d.media, m.mcoords.isSome = true →
        m.mlayout.isSome = true ∧ m.mstyles.isSome = true) ∧
      (∀ ch ∈ d.children, ∀ cd : Descr, ch.descr = some cd →
        cd.layout.isSome = true ∧ cd.styles.isSome = true) := by
  intro kc hm d hd
  obtain ⟨kv, _, hf⟩ := mapM_mem_option _ data out h kc hm
  simp only [Option.pure_def, Option.bind_eq_bind] at hf
  cases h1 : _process_component kv.2 none with
  | none => rw [h1] at hf; simp at hf
  | some c1 =>
    rw [h1, Option.some_bind] at hf
    cases h2 : processMediaList c1 with
    | none => rw [h2] at hf; simp at hf
    | some c2 =>
      rw [h2, Option.some_bind] at hf
      cases h3 : processChildren c2 with
      | none => rw [h3] at hf; simp at hf
      | some c3 =>
        rw [h3, Option.some_bind, Option.some.injEq] at hf
        have hkc2 : kc.2 = c3 := by rw [← hf]
        rw [hkc2] at hd
        rw [processChildren] at h3
        split at h3
        · next heq2 =>
          cases h3
          rw [heq2] at hd
          cases hd
        · next d2 heq2 =>
          cases hchs : d2.children.mapM (fun ch => _process_component ch (some c2)) with
          | none => rw [hchs] at h3; cases h3
          | some chs =>
            rw [hchs] at h3
            simp only [Option.map_some', Option.some.injEq] at h3
            rw [← h3] at hd
            rw [show (setDescr c2 (Descr.mk d2.dtype d2.ddesc d2.dtext d2.media chs
              d2.styles d2.layout)).descr = some (Descr.mk d2.dtype d2.ddesc d2.dtext
              d2.media chs d2.styles d2.layout) from rfl] at hd
            cases hd
            rw [processMediaList] at h2
            split at h2
            · next heq1 =>
              cases h2
              rw [heq1] at heq2
              cases heq2
            · next d1 heq1 =>
              cases hms : d1.media.mapM (fun m => _process_media_element m c1) with
              | none => rw [hms] at h2; cases h2
              | some ms =>
                rw [hms] at h2
                simp only [Option.map_some', Option.some.injEq] at h2
                rw [← h2] at heq2
                rw [show (setDescr c1 (Descr.mk d1.dtype d1.ddesc d1.dtext ms
                  d1.children d1.styles d1.layout)).descr = some (Descr.mk d1.dtype
                  d1.ddesc d1.dtext ms d1.children d1.styles d1.layout)
                  from rfl] at heq2
                cases heq2
                obtain ⟨hl1, hs1⟩ := processComponent_layoutOnly kv.2 none c1 h1 d1 heq1
                refine ⟨hl1, hs1, ?_, ?_⟩
                · intro m hmm hcoords
                  obtain ⟨m0, _, hm0⟩ := mapM_mem_option _ _ ms hms m hmm
                  exact processMediaElement_layout m0 c1 m hm0 hcoords
                · intro ch hch cd hcd
                  obtain ⟨ch0, _, hch0⟩ := mapM_mem_option _ _ chs hchs ch hch
                  exact processComponent_layoutOnly ch0 (some c2) ch hch0 cd hcd
/-- Default component (placeholder for total head extraction). -/
def dfltComp : Comp := Comp.mk "" "" none none

/-- Default description (placeholder for total extraction). -/
def dfltDescr : Descr := Descr.mk "" "" "" [] [] none none

/-- A media item with coordinates for the C2 witness. -/
def wMedia : MediaItem :=
  ⟨"image", some ⟨10, 10, 20, 20⟩, "assets/image_0.png", "image", none, none⟩

/-- A direct child with coordinates and a description. -/
def wChildC : Comp := Comp.mk "c_w" "text" (some ⟨30, 30, 60, 60⟩)
  (some (Descr.mk "text" "" "" [] [] none none))

/-- A top-level component holding one media item and one child. -/
def wRoot : Comp := Comp.mk "comp_1" "div" (some ⟨0, 0, 100, 100⟩)
  (some (Descr.mk "div" "" "" [wMedia] [wChildC] none none))

/-- The witness input. -/
def wData : List (String × Comp) := [("comp_1", wRoot)]

/-- The witness run's output. -/
def wOut : List (String × Comp) := (process_component_structure wData).getD []

/-- The witness run's top-level entry. -/
def wKC : String × Comp := wOut.headD ("", dfltComp)

/-- The annotated top-level description. -/
def wRootDescr : Descr := wKC.2.descr.getD dfltDescr

/-- The annotated child. -/
def wOutChild : Comp := wRootDescr.children.headD dfltComp

/-- The annotated child's description. -/
def wChildDescr : Descr := wOutChild.descr.getD dfltDescr

/-- The annotated media item. -/
def wOutMedia : MediaItem := wRootDescr.media.headD wMedia

/-- Witness for C2: on a concrete top-level component with one media
item and one child, the run completes and the annotations are present. -/
theorem process_structure_annotates_witness :
    wRootDescr.layout.isSome = true ∧ wRootDescr.styles.isSome = true ∧
    wOutMedia.mlayout.isSome = true ∧ wChildDescr.layout.isSome = true := by
  have hmem : wKC ∈ wOut := by
    exact (List.mem_singleton_self wKC : wKC ∈ [wKC])
  have hds : wKC.2.descr = some wRootDescr := rfl
  have h := process_structure_annotates wData wOut rfl wKC hmem wRootDescr hds
  refine ⟨h.1, h.2.1, ?_, ?_⟩
  · exact (h.2.2.1 wOutMedia
      (by exact (List.mem_singleton_self wOutMedia : wOutMedia ∈ [wOutMedia]))
      rfl).1
  · exact (h.2.2.2 wOutChild
      (by exact (List.mem_singleton_self wOutChild : wOutChild ∈ [wOutChild]))
      wChildDescr rfl).1

/-- A grandchild with its own description and coordinates. -/
def gComp : Comp := Comp.mk "g" "text" (some ⟨0, 0, 10, 10⟩)
  (some (Descr.mk "text" "" "" [] [] none none))

/-- A direct child holding the grandchild. -/
def midComp : Comp := Comp.mk "c" "div" (some ⟨0, 0, 50, 50⟩)
  (some (Descr.mk "div" "" "" [] [gComp] none none))

/-- A top-level component whose tree is three levels deep. -/
def deepRoot : Comp := Comp.mk "r" "div" (some ⟨0, 0, 100, 100⟩)
  (some (Descr.mk "div" "" "" [] [midComp] none none))

/-- The three-level input. -/
def deepData : List (String × Comp) := [("comp_1", deepRoot)]

/-- The processed three-level top component. -/
def deepOutRoot : Comp :=
  (((process_component_structure deepData).getD []).headD ("", dfltComp)).2

/-- Description extraction with a default. -/
def descrOf (c : Comp) : Descr := c.descr.getD dfltDescr

/-- First child of a component. -/
def child0 (c : Comp) : Comp := (descrOf c).children.headD dfltComp

/-- C2 counterexample: after the Layout Synthesizer runs on a
three-level tree, the top component and its direct child carry layout
records but the grandchild — a component node of the tree — has none:
`_process_component` is not recursive and `process_component_structure`
only visits the top level and its direct children. -/
theorem process_depth_counterexample :
    (descrOf (child0 (child0 deepOutRoot))).layout = none ∧
    (descrOf (child0 (child0 deepOutRoot))).dtype = "text" ∧
    (descrOf (child0 deepOutRoot)).layout.isSome = true ∧
    (descrOf deepOutRoot).layout.isSome = true :=
  ⟨rfl, rfl, rfl, rfl⟩

/-- Lexicographic order on RGB pixel triples (the row order
`np.unique(..., axis=0)` sorts by). -/
def pixLe (a b : ℕ × ℕ × ℕ) : Prop :=
  a.1 < b.1 ∨ (a.1 = b.1 ∧ (a.2.1 < b.2.1 ∨ (a.2.1 = b.2.1 ∧ a.2.2 ≤ b.2.2)))

instance (a b : ℕ × ℕ × ℕ) : Decidable (pixLe a b) :=
  inferInstanceAs (Decidable
    (a.1 < b.1 ∨ (a.1 = b.1 ∧ (a.2.1 < b.2.1 ∨ (a.2.1 = b.2.1 ∧ a.2.2 ≤ b.2.2)))))

/-- `np.unique(pixels, axis=0)`: the distinct pixel rows in ascending
lexicographic order. -/
def uniqueColors (pixels : List (ℕ × ℕ × ℕ)) : List (ℕ × ℕ × ℕ) :=
  List.insertionSort pixLe pixels.dedup

/-- Two-digit lowercase hex rendering (`f"{r:02x}"`). -/
def hex2 (n : ℕ) : String :=
  let ds := Nat.toDigits 16 n
  String.mk (List.replicate (2 - ds.length) '0' ++ ds)

/-- Python slice `l[::k]` for positive `k`. -/
def sliceStep {α : Type} (l : List α) (k : ℕ) : List α :=
  l.enum.filterMap (fun ie => if ie.1 % k = 0 then some ie.2 else none)

/-- `_fallback_extract_colors` (description_generation/helper.py lines
794-824) on an RGB crop given as pixel rows: at most one pixel gives the
white default; `max_colors = 0` divides by zero, which the except
clause turns into the white default; otherwise the sorted unique colors
are thinned by stride when too many and rendered as hex strings. -/
def _fallback_extract_colors (img : List (List (ℕ × ℕ × ℕ)))
    (max_colors : ℕ) : List String :=
  if (img.flatten).length ≤ 1 then ["#ffffff"]
  else if max_colors = 0 then ["#ffffff"]
  else
    ((if max_colors < (uniqueColors img.flatten).length then
        (sliceStep (uniqueColors img.flatten)
          ((uniqueColors img.flatten).length / max_colors)).take max_colors
      else uniqueColors img.flatten).take max_colors).map
      (fun p => "#" ++ hex2 p.1 ++ hex2 p.2.1 ++ hex2 p.2.2)

theorem dedup_const (c : ℕ × ℕ × ℕ) :
    ∀ l : List (ℕ × ℕ × ℕ), l ≠ [] → (∀ x ∈ l, x = c) → l.dedup = [c] := by
  intro l
  induction l with
  | nil => intro h _; exact absurd rfl h
  | cons a t ih =>
    intro _ hall
    have ha : a = c := hall a (List.mem_cons_self _ _)
    cases t with
    | nil => rw [ha]; rfl
    | cons b t' =>
      have ht : (b :: t').dedup = [c] :=
        ih (List.cons_ne_nil _ _) (fun x hx => hall x (List.mem_cons_of_mem _ hx))
      rw [List.dedup_cons_of_mem, ht]
      rw [ha]
      have hb : b = c := hall b (List.mem_cons_of_mem _ (List.mem_cons_self _ _))
      rw [hb]
      exact List.mem_cons_self _ _

/-- C8: on an all-white RGB crop the fallback color extractor returns
exactly `["#ffffff"]`, and a degenerate crop of at most one pixel
returns `["#ffffff"]` as the last-resort default. -/
theorem fallback_extract_colors_white (img : List (List (ℕ × ℕ × ℕ)))
    (h : (∀ p ∈ img.flatten, p = (255, 255, 255)) ∨ img.flatten.length ≤ 1) :
    _fallback_extract_colors img 5 = ["#ffffff"] := by
  rw [_fallback_extract_colors]
  by_cases hlen : img.flatten.length ≤ 1
  · rw [if_pos hlen]
  · rcases h with hall | h1
    · rw [if_neg hlen, if_neg (by decide : ¬ (5 = 0))]
      have hne : img.flatten ≠ [] := by
        intro he
        rw [he] at hlen
        simp at hlen
      have hd : uniqueColors img.flatten = [(255, 255, 255)] := by
        rw [uniqueColors, dedup_const _ _ hne hall]
        rfl
      rw [hd]
      rfl
    · exact absurd h1 hlen

/-- Witness for C8 at a concrete 2x2 all-white crop. -/
theorem fallback_extract_colors_white_witness :
    _fallback_extract_colors
      [[(255, 255, 255), (255, 255, 255)], [(255, 255, 255), (255, 255, 255)]]
      5 = ["#ffffff"] :=
  fallback_extract_colors_white _ (Or.inl (by decide))

end Desc
